import Mathlib

/-!
Shallow embedding of the sports-DVR recording supervisor
(`src/service/sports_dvr/recording/manager.py`) together with the start/stop
handlers of the request facade (`src/service/sports_dvr/api/routes.py`).

Modelling conventions:

* The two shared dictionaries `RecordingManager._recordings` and
  `RecordingManager._processes` are modelled as association lists keyed by
  `event_id`.  Python `dict` assignment/`del` become `dinsert` / key removal;
  `in` becomes a lookup test.
* Wall-clock time (`datetime.now()`) is a natural-number clock in the system
  state; `strftime` timestamps are an opaque deterministic rendering of that
  clock.  `progress_percent` arithmetic (floating point in the source) is
  carried out in `ℚ`; all operations involved (division by a positive
  constant, multiplication by 100, `min` with 100) are monotone, so order
  facts transfer.  Note that the source would raise `ZeroDivisionError` in
  the monitor when `duration_minutes = 0`; rational division by zero yields
  0 instead, so progress statements are only meaningful for positive
  durations.
* The asyncio scheduling model: every coroutine runs atomically between
  `await` points.  The suspension points in the source are exactly: the
  `create_subprocess_exec` call in `start_recording`, the
  `asyncio.sleep(10)` in `_monitor_recording`, and the `process.wait()` in
  `stop_recording`.  Each pending coroutine is a `Tsk` value recording its
  resume point; a scheduler action picks a pending task and runs its next
  atomic segment.  Whether `create_subprocess_exec` succeeds or raises is a
  nondeterministic `LaunchOutcome` supplied by the scheduler action.
* An external process is a `Proc` holding its `returncode` (`none` while
  running).  The environment action `procExit` models the process exiting.
  `process.terminate()` only signals the OS, so it is invisible in the
  state; the subsequent exit is a `procExit` step.
* An uncaught exception inside an operation (the unguarded
  `del self._processes[event_id]` in `stop_recording`) is recorded in the
  `exns` log of the state; the raising coroutine dies at that point.
-/

namespace SportsDVR

/-- Lifecycle status strings stored in a record (`"starting"`, `"recording"`,
`"completed"`, `"stopped"`, `"failed"`). -/
inductive Status
  | starting
  | recording
  | completed
  | stopped
  | failed
deriving DecidableEq

/-- One value of the `_recordings` dictionary: the `recording_info` dict built
in `RecordingManager.start_recording` (manager.py lines 76-87).  Timestamps
(`started_at`, `completed_at`) are modelled as the clock value at which they
were taken; `completed_at` is absent until the monitor's terminal write. -/
structure Recording where
  event_id : String
  event_name : String
  status : Status
  progress_percent : ℚ
  started_at : Nat
  duration_minutes : Nat
  output_dir : String
  hls_path : String
  mp4_path : String
  timeshift_url : String
  completed_at : Option Nat
  error : Option String
deriving DecidableEq

/-- An external capture process: only its exit status is observable
(`returncode` is `none` while it is still running). -/
structure Proc where
  returncode : Option Int
deriving DecidableEq

/-- Association-list lookup, modelling Python `d[k]` / `d.get(k)`. -/
def dlookup {α : Type} (k : String) : List (String × α) → Option α
  | [] => none
  | (k', v) :: rest => if k' = k then some v else dlookup k rest

/-- Association-list insert/overwrite, modelling Python `d[k] = v`. -/
def dinsert {α : Type} (k : String) (v : α) : List (String × α) → List (String × α)
  | [] => [(k, v)]
  | (k', v') :: rest => if k' = k then (k, v) :: rest else (k', v') :: dinsert k v rest

/-- Update the value at a key in place, if present (models mutation of the
dict value object aliased under that key). -/
def dmodify {α : Type} (k : String) (f : α → α) : List (String × α) → List (String × α)
  | [] => []
  | (k', v) :: rest => if k' = k then (k', f v) :: rest else (k', v) :: dmodify k f rest

/-- Character class accepted by the sanitizer in manager.py line 51:
`c.isalnum() or c in "- _"`. -/
def isSafeChar (c : Char) : Bool :=
  c.isAlphanum || c == '-' || c == ' ' || c == '_'

/-- The event-name sanitizer (manager.py line 51): every character outside the
safe class is replaced by an underscore; safe characters (including spaces)
are kept. -/
def sanitize (name : String) : String :=
  String.mk (name.toList.map (fun c => if isSafeChar c then c else '_'))

/-- Deterministic rendering of the creation instant, modelling
`datetime.now().strftime("%Y%m%d_%H%M%S")` (manager.py line 52). -/
def timestampStr (clock : Nat) : String := toString clock

/-- The FFmpeg invocation built in manager.py lines 62-74: one input, an HLS
output (segment list kept unbounded, `append_list+delete_segments+omit_endlist`
flags) and an MP4 output capped at `duration_minutes * 60` seconds, both in
stream-copy mode. -/
def buildCmd (stream_url : String) (duration_minutes : Nat)
    (hls_path mp4_path : String) : List String :=
  ["ffmpeg",
   "-i", stream_url,
   "-c", "copy",
   "-f", "hls",
   "-hls_time", "6",
   "-hls_list_size", "0",
   "-hls_flags", "append_list+delete_segments+omit_endlist",
   hls_path,
   "-c", "copy",
   "-t", toString (duration_minutes * 60),
   mp4_path]

/-- The `recording_info` dict assembled in manager.py lines 50-87 for a fresh
event: status `starting`, progress 0, freshly derived output locations and
time-shift URL, no completion time, no error. -/
def freshRecording (eid name : String) (dur : Nat) (out : String) (clock : Nat) :
    Recording :=
  let safe := sanitize name
  let dirName := safe ++ "_" ++ timestampStr clock
  let dir := out ++ "/" ++ dirName
  { event_id := eid
    event_name := name
    status := Status.starting
    progress_percent := 0
    started_at := clock
    duration_minutes := dur
    output_dir := dir
    hls_path := dir ++ "/stream.m3u8"
    mp4_path := dir ++ "/" ++ safe ++ ".mp4"
    timeshift_url := "/recordings/" ++ dirName ++ "/stream.m3u8"
    completed_at := none
    error := none }

/-- Resume points of the pending coroutines (see the scheduling notes above).

* `startReq`: a facade start request that has not yet run (routes.py line 36).
* `startLaunch`: `start_recording` suspended at `create_subprocess_exec`
  (manager.py line 92), after the record was inserted; `cmd` is the built
  FFmpeg command held in the coroutine frame.
* `monStart`: a `_monitor_recording` coroutine created by `create_task` but
  not yet scheduled.
* `monSleep`: the monitor suspended in `asyncio.sleep(10)`; `startT` is its
  `start_time`, `wakeAt` the instant the sleep elapses.
* `stopReq`: a facade stop request that has not yet run (routes.py line 57).
* `stopWait`: `stop_recording` suspended at `process.wait()`
  (manager.py line 146). -/
inductive Tsk
  | startReq (eid url name : String) (dur : Nat)
  | startLaunch (eid : String) (dur : Nat) (cmd : List String)
  | monStart (eid : String) (dur : Nat)
  | monSleep (eid : String) (dur : Nat) (startT wakeAt : Nat)
  | stopReq (eid : String)
  | stopWait (eid : String)
deriving DecidableEq

/-- Whole-system state: the supervisor's two shared dictionaries, the heap of
process objects ever created (a monitor keeps polling its process object even
after the handle is deregistered), the pending coroutines, the clock, and the
log of uncaught exceptions. -/
structure Sys where
  max_concurrent : Nat
  output_path : String
  recordings : List (String × Recording)
  procs : List (String × Proc)
  handles : List String
  tasks : List Tsk
  clock : Nat
  exns : List String
deriving DecidableEq

/-- `RecordingManager.active_count` (manager.py lines 25-28): the number of
records whose status is `recording`. -/
def activeCount (s : Sys) : Nat :=
  (s.recordings.filter (fun p => p.2.status == Status.recording)).length

/-- Result of the first atomic segment of `start_recording`: either the
record already existed (idempotent return, manager.py lines 46-48) or a fresh
record was inserted and the FFmpeg command built (lines 50-88). -/
inductive Seg1Result
  | existing (r : Recording)
  | inserted (r : Recording) (cmd : List String)
deriving DecidableEq

/-- First atomic segment of `RecordingManager.start_recording` (manager.py
lines 46-88): dedup check, name sanitation, path derivation, FFmpeg command
construction, and insertion of the record - everything strictly before the
`create_subprocess_exec` suspension point. -/
def start_seg1 (eid stream_url name : String) (dur : Nat) (s : Sys) :
    Sys × Seg1Result :=
  match dlookup eid s.recordings with
  | some r => (s, Seg1Result.existing r)
  | none =>
      let r := freshRecording eid name dur s.output_path s.clock
      let cmd := buildCmd stream_url dur r.hls_path r.mp4_path
      ({ s with recordings := dinsert eid r s.recordings }, Seg1Result.inserted r cmd)

/-- Successful-launch continuation of `start_recording` (manager.py lines
96-99): register the process handle and flip the status to `recording`.
(The `create_task` spawning the monitor is handled by the scheduler step.) -/
def start_launch_ok (eid : String) (s : Sys) : Sys :=
  { s with
    procs := dinsert eid { returncode := none } s.procs
    handles := if s.handles.contains eid then s.handles else eid :: s.handles
    recordings := dmodify eid (fun r => { r with status := Status.recording }) s.recordings }

/-- Failed-launch continuation of `start_recording` (manager.py lines
104-107): the exception is caught, the status set to `failed` and the error
recorded; no handle is registered and no monitor spawned. -/
def start_launch_err (eid msg : String) (s : Sys) : Sys :=
  { s with
    recordings := dmodify eid
      (fun r => { r with status := Status.failed, error := some msg }) s.recordings }

/-- The monitor's terminal write (manager.py lines 133-135): status
`completed`, progress pinned to 100, completion time recorded. -/
def finishF (clock : Nat) (r : Recording) : Recording :=
  { r with status := Status.completed, progress_percent := 100, completed_at := some clock }

/-- The code after the monitor loop (manager.py lines 131-139): if the record
still exists, apply the terminal write; then deregister the process handle if
still registered. -/
def monitor_finish (eid : String) (s : Sys) : Sys :=
  { s with
    recordings := dmodify eid (finishF s.clock) s.recordings
    handles := s.handles.filter (fun x => x != eid) }

/-- The status write of `stop_recording` (manager.py lines 149-151): set the
record's status to `stopped` if a record exists; no-op otherwise. -/
def stop_set_stopped (eid : String) (s : Sys) : Sys :=
  { s with
    recordings := dmodify eid (fun r => { r with status := Status.stopped }) s.recordings }

/-- Whether `create_subprocess_exec` returns a process or raises; chosen
nondeterministically by the scheduler step that resumes a `startLaunch`. -/
inductive LaunchOutcome
  | ok
  | err (msg : String)
deriving DecidableEq

def setTask (i : Nat) (t : Tsk) (l : List Tsk) : List Tsk := l.set i t

def dropTask (i : Nat) (l : List Tsk) : List Tsk := l.eraseIdx i

/-- Run the next atomic segment of pending coroutine `t` (stored at index `i`
of the task list).  Returns `none` when the segment is not enabled (still
sleeping / still waiting) or the scheduling is ill-formed. -/
def runTask1 (t : Tsk) (i : Nat) (outcome : LaunchOutcome) (s : Sys) : Option Sys :=
  match t with
  | Tsk.startReq eid url name dur =>
      -- routes.py lines 40-51: ceiling check, then start_recording up to the
      -- launch suspension point, all without an intervening await.
      if s.max_concurrent ≤ activeCount s then
        some { s with tasks := dropTask i s.tasks }   -- 429 response
      else
        match start_seg1 eid url name dur s with
        | (s1, Seg1Result.existing _) => some { s1 with tasks := dropTask i s1.tasks }
        | (s1, Seg1Result.inserted _ cmd) =>
            some { s1 with tasks := setTask i (Tsk.startLaunch eid dur cmd) s1.tasks }
  | Tsk.startLaunch eid dur _cmd =>
      match dlookup eid s.recordings with
      | none => none
      | some _ =>
          match outcome with
          | LaunchOutcome.ok =>
              let s1 := start_launch_ok eid s
              some { s1 with tasks := setTask i (Tsk.monStart eid dur) s1.tasks }
          | LaunchOutcome.err m =>
              let s1 := start_launch_err eid m s
              some { s1 with tasks := dropTask i s1.tasks }
  | Tsk.monStart eid dur =>
      -- manager.py lines 118-122: take start_time, test the while condition;
      -- either enter the sleep or (process already exited) finish at once.
      match dlookup eid s.procs with
      | none => none
      | some p =>
          match p.returncode with
          | none =>
              some { s with tasks := setTask i (Tsk.monSleep eid dur s.clock (s.clock + 10)) s.tasks }
          | some _ =>
              let s1 := monitor_finish eid s
              some { s1 with tasks := dropTask i s1.tasks }
  | Tsk.monSleep eid dur startT wakeAt =>
      -- one wake-up of the monitor loop (manager.py lines 121-139)
      if s.clock < wakeAt then none
      else
        match dlookup eid s.recordings with
        | none =>
            -- record externally removed: break, skip the terminal write,
            -- deregister the handle
            let s1 := { s with handles := s.handles.filter (fun x => x != eid) }
            some { s1 with tasks := dropTask i s1.tasks }
        | some _ =>
            let elapsed : ℚ := ((s.clock - startT : Nat) : ℚ)
            let total : ℚ := ((dur * 60 : Nat) : ℚ)
            let prog := min 100 ((elapsed / total) * 100)
            let recs := dmodify eid (fun r0 => { r0 with progress_percent := prog }) s.recordings
            let s1 := { s with recordings := recs }
            match dlookup eid s.procs with
            | none => none
            | some p =>
                match p.returncode with
                | none =>
                    some { s1 with tasks := setTask i (Tsk.monSleep eid dur startT (s.clock + 10)) s1.tasks }
                | some _ =>
                    let s2 := monitor_finish eid s1
                    some { s2 with tasks := dropTask i s2.tasks }
  | Tsk.stopReq eid =>
      -- manager.py lines 143-151
      if s.handles.contains eid then
        -- process.terminate() signals the OS; suspend at process.wait()
        some { s with tasks := setTask i (Tsk.stopWait eid) s.tasks }
      else
        let s1 := stop_set_stopped eid s
        some { s1 with tasks := dropTask i s1.tasks }
  | Tsk.stopWait eid =>
      match dlookup eid s.procs with
      | none => none
      | some p =>
          match p.returncode with
          | none => none    -- still waiting for the process to exit
          | some _ =>
              if s.handles.contains eid then
                let s1 := { s with handles := s.handles.filter (fun x => x != eid) }
                let s2 := stop_set_stopped eid s1
                some { s2 with tasks := dropTask i s2.tasks }
              else
                -- the monitor deregistered the handle during the wait:
                -- `del self._processes[event_id]` raises KeyError and the
                -- status write below it is never reached
                some { s with
                  exns := s.exns ++ ["KeyError: " ++ eid]
                  tasks := dropTask i s.tasks }

/-- Scheduler / environment actions: a new facade request arriving, the
scheduler resuming pending coroutine `i`, the external process exiting, or
time passing. -/
inductive Act
  | submitStart (eid url name : String) (dur : Nat)
  | submitStop (eid : String)
  | runTask (i : Nat) (outcome : LaunchOutcome)
  | procExit (eid : String) (rc : Int)
  | tick (d : Nat)
deriving DecidableEq

/-- One step of the whole system. -/
def runAct (a : Act) (s : Sys) : Option Sys :=
  match a with
  | Act.submitStart eid url name dur =>
      some { s with tasks := s.tasks ++ [Tsk.startReq eid url name dur] }
  | Act.submitStop eid =>
      some { s with tasks := s.tasks ++ [Tsk.stopReq eid] }
  | Act.runTask i outcome =>
      match s.tasks[i]? with
      | none => none
      | some t => runTask1 t i outcome s
  | Act.procExit eid rc =>
      match dlookup eid s.procs with
      | none => none
      | some p =>
          match p.returncode with
          | none =>
              let ps := dmodify eid (fun q => { q with returncode := some rc }) s.procs
              some { s with procs := ps }
          | some _ => none
  | Act.tick d => some { s with clock := s.clock + d }

/-- Run a list of actions in order; `none` if any action is not enabled. -/
def runTrace (acts : List Act) (s : Sys) : Option Sys :=
  match acts with
  | [] => some s
  | a :: rest =>
      match runAct a s with
      | none => none
      | some s1 => runTrace rest s1

/-- The supervisor's state right after construction (manager.py lines 15-23):
empty dictionaries, no pending coroutines. -/
def initSys (mc : Nat) (out : String) : Sys :=
  { max_concurrent := mc
    output_path := out
    recordings := []
    procs := []
    handles := []
    tasks := []
    clock := 0
    exns := [] }

/-- One enabled step between states. -/
def Steps (s s' : Sys) : Prop := ∃ a, runAct a s = some s'

/-- Reachability by any interleaving of facade requests, scheduler choices
and environment events. -/
def Reachable (s s' : Sys) : Prop := Relation.ReflTransGen Steps s s'


section DictLemmas

variable {α : Type}

theorem dlookup_dinsert_self (k : String) (v : α) (d : List (String × α)) :
    dlookup k (dinsert k v d) = some v := by
  induction d with
  | nil => simp [dinsert, dlookup]
  | cons hd tl ih =>
      obtain ⟨k', v'⟩ := hd
      by_cases hk : k' = k <;> simp [dinsert, dlookup, hk, ih]

theorem dlookup_dinsert_ne {k k' : String} (h : k' ≠ k) (v : α) (d : List (String × α)) :
    dlookup k' (dinsert k v d) = dlookup k' d := by
  induction d with
  | nil => simp [dinsert, dlookup, h.symm]
  | cons hd tl ih =>
      obtain ⟨k0, v0⟩ := hd
      by_cases hk : k0 = k
      · subst hk
        simp [dinsert, dlookup, h.symm]
      · simp [dinsert, dlookup, hk, ih]

theorem dlookup_dmodify_self (k : String) (f : α → α) (d : List (String × α)) :
    dlookup k (dmodify k f d) = (dlookup k d).map f := by
  induction d with
  | nil => simp [dmodify, dlookup]
  | cons hd tl ih =>
      obtain ⟨k0, v0⟩ := hd
      by_cases hk : k0 = k <;> simp [dmodify, dlookup, hk, ih]

theorem dlookup_dmodify_ne {k k' : String} (h : k' ≠ k) (f : α → α) (d : List (String × α)) :
    dlookup k' (dmodify k f d) = dlookup k' d := by
  induction d with
  | nil => simp [dmodify]
  | cons hd tl ih =>
      obtain ⟨k0, v0⟩ := hd
      by_cases hk : k0 = k
      · subst hk
        simp [dmodify, dlookup, h.symm]
      · simp [dmodify, dlookup, hk, ih]

end DictLemmas

/-- A demo record used to instantiate witnesses at concrete inputs. -/
def demoRec : Recording := freshRecording "e" "n" 5 "o" 0

/-- A concrete state with one existing record for `"e"` and one pending
re-submission request for the same event. -/
def w1sys : Sys :=
  { initSys 2 "o" with
    recordings := [("e", demoRec)]
    tasks := [Tsk.startReq "e" "u2" "n2" 7] }

/-- C1: re-submitting an `event_id` that is already tracked returns the
existing record unchanged (manager.py lines 46-48): the first segment of
`start_recording` yields the stored record and the whole step leaves the
record mapping, the process-handle mapping and the process heap unchanged and
spawns no continuation task, whatever the new call's url, name and duration
arguments are. -/
theorem C1_idempotent_resubmission (s : Sys) (i : Nat) (eid url name : String)
    (dur : Nat) (o : LaunchOutcome) (r : Recording)
    (htask : s.tasks[i]? = some (Tsk.startReq eid url name dur))
    (hrec : dlookup eid s.recordings = some r) :
    start_seg1 eid url name dur s = (s, Seg1Result.existing r) ∧
    runAct (Act.runTask i o) s = some { s with tasks := dropTask i s.tasks } := by
  have hseg : start_seg1 eid url name dur s = (s, Seg1Result.existing r) := by
    simp [start_seg1, hrec]
  refine ⟨hseg, ?_⟩
  by_cases hcap : s.max_concurrent ≤ activeCount s
  · simp [runAct, htask, runTask1, hcap]
  · simp [runAct, htask, runTask1, hcap, hseg]

/-- Witness for C1 at a concrete state: a second start for `"e"` with
different url/name/duration returns the stored record and changes nothing. -/
theorem C1_witness :
    start_seg1 "e" "u2" "n2" 7 w1sys = (w1sys, Seg1Result.existing demoRec) ∧
    runAct (Act.runTask 0 LaunchOutcome.ok) w1sys =
      some { w1sys with tasks := dropTask 0 w1sys.tasks } :=
  C1_idempotent_resubmission w1sys 0 "e" "u2" "n2" 7 LaunchOutcome.ok demoRec rfl rfl

/-- C4: when `create_subprocess_exec` raises, the exception is caught inside
`start_recording` (manager.py lines 104-107): the record flips to `failed`
with the error detail, no process handle is registered, no process object is
created, no monitor task is spawned (the start coroutine just ends), and no
exception escapes to the caller. -/
theorem C4_launch_failure_captured (s : Sys) (i : Nat) (eid : String) (dur : Nat)
    (cmd : List String) (m : String) (r : Recording)
    (htask : s.tasks[i]? = some (Tsk.startLaunch eid dur cmd))
    (hrec : dlookup eid s.recordings = some r) :
    ∃ s', runAct (Act.runTask i (LaunchOutcome.err m)) s = some s' ∧
      dlookup eid s'.recordings = some { r with status := Status.failed, error := some m } ∧
      s'.procs = s.procs ∧ s'.handles = s.handles ∧
      s'.tasks = dropTask i s.tasks ∧ s'.exns = s.exns := by
  refine ⟨{ start_launch_err eid m s with tasks := dropTask i s.tasks }, ?_, ?_, rfl, rfl, rfl, rfl⟩
  · simp [runAct, htask, runTask1, hrec, start_launch_err]
  · simp [start_launch_err, dlookup_dmodify_self, hrec]

/-- A concrete state with the start coroutine for `"e"` suspended at the
launch point. -/
def w4sys : Sys :=
  { initSys 2 "o" with
    recordings := [("e", demoRec)]
    tasks := [Tsk.startLaunch "e" 5 (buildCmd "u" 5 demoRec.hls_path demoRec.mp4_path)] }

/-- Witness for C4: a concrete failing launch is captured into the record. -/
theorem C4_witness :
    ∃ s', runAct (Act.runTask 0 (LaunchOutcome.err "boom")) w4sys = some s' ∧
      dlookup "e" s'.recordings =
        some { demoRec with status := Status.failed, error := some "boom" } ∧
      s'.procs = w4sys.procs ∧ s'.handles = w4sys.handles ∧
      s'.tasks = dropTask 0 w4sys.tasks ∧ s'.exns = w4sys.exns :=
  C4_launch_failure_captured w4sys 0 "e" 5
    (buildCmd "u" 5 demoRec.hls_path demoRec.mp4_path) "boom" demoRec rfl rfl

/-- C6: an admitted start for a fresh `event_id` inserts the record - status
`starting`, progress 0, derived time-shift URL populated - in the same atomic
segment that ends at the launch suspension point (manager.py lines 76-92):
after that segment the record is visible to every reader while the process
heap and handle mapping are untouched and the launch is still pending. -/
theorem C6_insert_before_launch (s : Sys) (i : Nat) (eid url name : String)
    (dur : Nat) (o : LaunchOutcome)
    (htask : s.tasks[i]? = some (Tsk.startReq eid url name dur))
    (hfresh : dlookup eid s.recordings = none)
    (hcap : activeCount s < s.max_concurrent) :
    ∃ s', runAct (Act.runTask i o) s = some s' ∧
      dlookup eid s'.recordings = some (freshRecording eid name dur s.output_path s.clock) ∧
      (freshRecording eid name dur s.output_path s.clock).status = Status.starting ∧
      (freshRecording eid name dur s.output_path s.clock).progress_percent = 0 ∧
      (freshRecording eid name dur s.output_path s.clock).timeshift_url =
        "/recordings/" ++ (sanitize name ++ "_" ++ timestampStr s.clock) ++ "/stream.m3u8" ∧
      s'.procs = s.procs ∧ s'.handles = s.handles ∧
      s'.tasks = setTask i
        (Tsk.startLaunch eid dur
          (buildCmd url dur (freshRecording eid name dur s.output_path s.clock).hls_path
            (freshRecording eid name dur s.output_path s.clock).mp4_path)) s.tasks := by
  have hcap' : ¬ s.max_concurrent ≤ activeCount s := by omega
  refine ⟨{ s with
      recordings := dinsert eid (freshRecording eid name dur s.output_path s.clock) s.recordings
      tasks := setTask i
        (Tsk.startLaunch eid dur
          (buildCmd url dur (freshRecording eid name dur s.output_path s.clock).hls_path
            (freshRecording eid name dur s.output_path s.clock).mp4_path)) s.tasks },
    ?_, ?_, rfl, rfl, ?_, rfl, rfl, rfl⟩
  · simp [runAct, htask, runTask1, hcap', start_seg1, hfresh]
  · exact dlookup_dinsert_self eid _ s.recordings
  · simp [freshRecording, timestampStr]

/-- A concrete state with one fresh pending start request. -/
def w6sys : Sys :=
  { initSys 2 "o" with tasks := [Tsk.startReq "e" "u" "n" 5] }

/-- Witness for C6 at a concrete fresh start. -/
theorem C6_witness :
    ∃ s', runAct (Act.runTask 0 LaunchOutcome.ok) w6sys = some s' ∧
      dlookup "e" s'.recordings = some (freshRecording "e" "n" 5 w6sys.output_path w6sys.clock) ∧
      (freshRecording "e" "n" 5 w6sys.output_path w6sys.clock).status = Status.starting ∧
      (freshRecording "e" "n" 5 w6sys.output_path w6sys.clock).progress_percent = 0 ∧
      (freshRecording "e" "n" 5 w6sys.output_path w6sys.clock).timeshift_url =
        "/recordings/" ++ (sanitize "n" ++ "_" ++ timestampStr w6sys.clock) ++ "/stream.m3u8" ∧
      s'.procs = w6sys.procs ∧ s'.handles = w6sys.handles ∧
      s'.tasks = setTask 0
        (Tsk.startLaunch "e" 5
          (buildCmd "u" 5 (freshRecording "e" "n" 5 w6sys.output_path w6sys.clock).hls_path
            (freshRecording "e" "n" 5 w6sys.output_path w6sys.clock).mp4_path)) w6sys.tasks :=
  C6_insert_before_launch w6sys 0 "e" "u" "n" 5 LaunchOutcome.ok rfl rfl (by decide)

/-- C10: the two state-mutating segments of `stop_recording` (manager.py lines
141-151) change at most the `status` field of any record: for every tracked
record, all other fields - progress, timestamps, paths, time-shift URL,
error - are exactly preserved, and in particular `completed_at` is never set
by a stop. -/
theorem C10_stop_touches_only_status (s s' : Sys) (i : Nat) (eid : String)
    (o : LaunchOutcome)
    (htask : s.tasks[i]? = some (Tsk.stopReq eid) ∨ s.tasks[i]? = some (Tsk.stopWait eid))
    (hstep : runAct (Act.runTask i o) s = some s') :
    ∀ k r, dlookup k s.recordings = some r →
      ∃ r', dlookup k s'.recordings = some r' ∧
        r' = { r with status := r'.status } ∧ r'.completed_at = r.completed_at := by
  intro k r hk
  rcases htask with htask | htask
  · simp only [runAct, htask] at hstep
    rw [runTask1] at hstep
    split at hstep
    · cases hstep
      exact ⟨r, hk, rfl, rfl⟩
    · cases hstep
      by_cases hke : k = eid
      · subst hke
        refine ⟨{ r with status := Status.stopped }, ?_, rfl, rfl⟩
        simp [stop_set_stopped, dlookup_dmodify_self, hk]
      · refine ⟨r, ?_, rfl, rfl⟩
        simp [stop_set_stopped, dlookup_dmodify_ne hke, hk]
  · simp only [runAct, htask] at hstep
    rw [runTask1] at hstep
    split at hstep
    · exact absurd hstep (by simp)
    · split at hstep
      · exact absurd hstep (by simp)
      · split at hstep
        · cases hstep
          by_cases hke : k = eid
          · subst hke
            refine ⟨{ r with status := Status.stopped }, ?_, rfl, rfl⟩
            simp [stop_set_stopped, dlookup_dmodify_self, hk]
          · refine ⟨r, ?_, rfl, rfl⟩
            simp [stop_set_stopped, dlookup_dmodify_ne hke, hk]
        · cases hstep
          exact ⟨r, hk, rfl, rfl⟩

/-- A concrete state with a record for `"e"` and a pending stop request and
no process handle. -/
def w10sys : Sys :=
  { initSys 2 "o" with
    recordings := [("e", demoRec)]
    tasks := [Tsk.stopReq "e"] }

/-- Witness for C10 at a concrete stop of a record without a live process. -/
theorem C10_witness :
    ∃ r', dlookup "e" ((stop_set_stopped "e" w10sys).recordings) = some r' ∧
      r' = { demoRec with status := r'.status } ∧ r'.completed_at = demoRec.completed_at := by
  have h := C10_stop_touches_only_status w10sys
    { stop_set_stopped "e" w10sys with tasks := dropTask 0 w10sys.tasks }
    0 "e" LaunchOutcome.ok (Or.inl rfl) (by rfl)
  exact h "e" demoRec rfl

section ListSurgery

variable {α : Type}

theorem countP_set_le (p : α → Bool) (l : List α) (i : Nat) (t : α) :
    (l.set i t).countP p ≤ l.countP p + (if p t then 1 else 0) := by
  induction l generalizing i with
  | nil => simp
  | cons a l ih =>
      cases i with
      | zero =>
          by_cases hpa : p a <;> by_cases hpt : p t <;>
            simp [List.countP_cons, hpa, hpt] <;> try omega
      | succ n =>
          have h := ih n
          by_cases hpa : p a <;> by_cases hpt : p t <;>
            simp [List.countP_cons, hpa, hpt] at h ⊢ <;> omega

theorem countP_set_le_of_neg (p : α → Bool) (l : List α) (i : Nat) (t : α)
    (ht : p t = false) : (l.set i t).countP p ≤ l.countP p := by
  have h := countP_set_le p l i t
  rw [ht] at h
  simpa using h

theorem countP_set_eq_of_pos (p : α → Bool) (l : List α) (i : Nat) (t t' : α)
    (hl : l[i]? = some t) (ht : p t = true) (ht' : p t' = true) :
    (l.set i t').countP p = l.countP p := by
  induction l generalizing i with
  | nil => simp at hl
  | cons a l ih =>
      cases i with
      | zero =>
          simp at hl
          subst hl
          simp [List.countP_cons, ht, ht']
      | succ n =>
          simp at hl
          simp [List.countP_cons, ih n hl]

theorem countP_eraseIdx_add (p : α → Bool) (l : List α) (i : Nat) (t : α)
    (hl : l[i]? = some t) :
    l.countP p = (l.eraseIdx i).countP p + (if p t then 1 else 0) := by
  induction l generalizing i with
  | nil => simp at hl
  | cons a l ih =>
      cases i with
      | zero =>
          simp at hl
          subst hl
          simp [List.countP_cons, List.eraseIdx]
      | succ n =>
          simp at hl
          simp [List.countP_cons, List.eraseIdx, ih n hl]
          omega

theorem mem_set_elim {l : List α} {i : Nat} {t a : α} (h : a ∈ l.set i t) :
    a = t ∨ a ∈ l.eraseIdx i := by
  induction l generalizing i with
  | nil => simp at h
  | cons a0 l ih =>
      cases i with
      | zero =>
          rw [List.set_cons_zero] at h
          rcases List.mem_cons.mp h with h | h
          · exact Or.inl h
          · exact Or.inr h
      | succ n =>
          rw [List.set_cons_succ] at h
          rcases List.mem_cons.mp h with h | h
          · subst h
            exact Or.inr (List.mem_cons_self _ _)
          · rcases ih h with h | h
            · exact Or.inl h
            · exact Or.inr (List.mem_cons_of_mem _ h)

end ListSurgery

/-- The coroutine that "owns" an event's launch/monitor lifecycle: the
suspended `start_recording` launch or the (unique) monitor of that event. -/
def ownerTsk (eid : String) : Tsk → Bool
  | Tsk.startLaunch e _ _ => e == eid
  | Tsk.monStart e _ => e == eid
  | Tsk.monSleep e _ _ _ => e == eid
  | _ => false

/-- The value a monitor wake-up at time `clock` writes into
`progress_percent` for a monitor started at `startT` with duration `dur`
minutes (manager.py lines 127-129). -/
def progBound (clock startT dur : Nat) : ℚ :=
  min 100 ((((clock - startT : Nat) : ℚ) / ((dur * 60 : Nat) : ℚ)) * 100)

theorem progBound_nonneg (c st dur : Nat) : 0 ≤ progBound c st dur := by
  apply le_min
  · norm_num
  · apply mul_nonneg
    · exact div_nonneg (Nat.cast_nonneg _) (Nat.cast_nonneg _)
    · norm_num

theorem progBound_le_100 (c st dur : Nat) : progBound c st dur ≤ 100 :=
  min_le_left _ _

theorem progBound_mono (st dur : Nat) {c c' : Nat} (h : c ≤ c') :
    progBound c st dur ≤ progBound c' st dur := by
  apply min_le_min (le_refl (100 : ℚ))
  apply mul_le_mul_of_nonneg_right _ (by norm_num : (0:ℚ) ≤ 100)
  rcases Nat.eq_zero_or_pos (dur * 60) with hz | hpos
  · rw [hz]
    norm_num
  · apply (div_le_div_iff_of_pos_right (by exact_mod_cast hpos)).mpr
    exact_mod_cast Nat.sub_le_sub_right h st

/-- Inductive invariant of the interleaving semantics, tying every pending
launch/monitor coroutine to the record it owns. -/
structure Inv (s : Sys) : Prop where
  launch : ∀ t ∈ s.tasks, ∀ eid dur cmd, t = Tsk.startLaunch eid dur cmd →
    ∃ r, dlookup eid s.recordings = some r ∧
      (r.status = Status.starting ∨ r.status = Status.stopped) ∧
      r.duration_minutes = dur ∧ r.progress_percent = 0
  monS : ∀ t ∈ s.tasks, ∀ eid dur, t = Tsk.monStart eid dur →
    ∃ r, dlookup eid s.recordings = some r ∧
      (r.status = Status.recording ∨ r.status = Status.stopped) ∧
      r.duration_minutes = dur ∧ r.progress_percent = 0
  monW : ∀ t ∈ s.tasks, ∀ eid dur st w, t = Tsk.monSleep eid dur st w →
    ∃ r, dlookup eid s.recordings = some r ∧
      (r.status = Status.recording ∨ r.status = Status.stopped) ∧
      r.duration_minutes = dur ∧ st ≤ s.clock ∧
      r.progress_percent ≤ progBound s.clock st dur
  uniq : ∀ eid, s.tasks.countP (ownerTsk eid) ≤ 1
  bounds : ∀ k r, dlookup k s.recordings = some r →
    0 ≤ r.progress_percent ∧ r.progress_percent ≤ 100 ∧
      (r.status = Status.completed → r.progress_percent = 100)

theorem inv_init (mc : Nat) (out : String) : Inv (initSys mc out) := by
  constructor
  · intro t ht
    simp [initSys] at ht
  · intro t ht
    simp [initSys] at ht
  · intro t ht
    simp [initSys] at ht
  · intro eid
    simp [initSys]
  · intro k r hk
    simp [initSys, dlookup] at hk

/-- Preservation of the invariant under steps that keep the record mapping
and the clock and only rearrange tasks without gaining owner coroutines. -/
theorem inv_of_eq {s : Sys} (hI : Inv s) (s' : Sys)
    (hrec : s'.recordings = s.recordings) (hclock : s'.clock = s.clock)
    (hmem : ∀ t ∈ s'.tasks, t ∈ s.tasks ∨ ∀ eid, ownerTsk eid t = false)
    (hcnt : ∀ eid, s'.tasks.countP (ownerTsk eid) ≤ s.tasks.countP (ownerTsk eid)) :
    Inv s' := by
  constructor
  · intro t ht eid dur cmd hsh
    rcases hmem t ht with hmem' | hno
    · rw [hrec]
      exact hI.launch t hmem' eid dur cmd hsh
    · exfalso
      have := hno eid
      rw [hsh] at this
      simp [ownerTsk] at this
  · intro t ht eid dur hsh
    rcases hmem t ht with hmem' | hno
    · rw [hrec]
      exact hI.monS t hmem' eid dur hsh
    · exfalso
      have := hno eid
      rw [hsh] at this
      simp [ownerTsk] at this
  · intro t ht eid dur st w hsh
    rcases hmem t ht with hmem' | hno
    · rw [hrec, hclock]
      exact hI.monW t hmem' eid dur st w hsh
    · exfalso
      have := hno eid
      rw [hsh] at this
      simp [ownerTsk] at this
  · intro eid
    exact le_trans (hcnt eid) (hI.uniq eid)
  · intro k r hk
    rw [hrec] at hk
    exact hI.bounds k r hk

/-- There is at most one owner coroutine per event: a second one surviving in
the erased task list is impossible. -/
theorem no_other_owner {l : List Tsk} {i : Nat} {t t' : Tsk} {eid : String}
    (hl : l[i]? = some t) (ht : ownerTsk eid t = true)
    (huniq : l.countP (ownerTsk eid) ≤ 1)
    (ht' : t' ∈ l.eraseIdx i) (hown' : ownerTsk eid t' = true) : False := by
  have hpos : 0 < (l.eraseIdx i).countP (ownerTsk eid) :=
    List.countP_pos_iff.mpr ⟨t', ht', hown'⟩
  have hadd := countP_eraseIdx_add (ownerTsk eid) l i t hl
  rw [ht] at hadd
  simp at hadd
  omega

/-- The status transitions a single atomic step of the code can perform.
The first block is the forward lifecycle; the last three lines are the
documented stop/monitor/launch races (a stop overwriting a terminal status,
the monitor's unconditional terminal write overwriting `stopped`, and the
launch continuation resuming after a stop raced the suspended launch). -/
def allowedStep : Status → Status → Bool
  | Status.starting, Status.recording => true
  | Status.starting, Status.failed => true
  | Status.starting, Status.stopped => true
  | Status.recording, Status.completed => true
  | Status.recording, Status.stopped => true
  | Status.completed, Status.stopped => true
  | Status.failed, Status.stopped => true
  | Status.stopped, Status.completed => true
  | Status.stopped, Status.recording => true
  | Status.stopped, Status.failed => true
  | _, _ => false

/-- Per-record effect of one step: the status moves along `allowedStep` (or
stays), and the progress never decreases. -/
def RecordEvolves (recs recs' : List (String × Recording)) : Prop :=
  ∀ k r r', dlookup k recs = some r → dlookup k recs' = some r' →
    (r'.status = r.status ∨ allowedStep r.status r'.status = true) ∧
    r.progress_percent ≤ r'.progress_percent

theorem recordEvolves_of_eq {recs recs' : List (String × Recording)}
    (h : recs' = recs) : RecordEvolves recs recs' := by
  intro k r r' hk hk'
  rw [h, hk] at hk'
  cases hk'
  exact ⟨Or.inl rfl, le_refl _⟩

theorem recordEvolves_of_dmodify {recs : List (String × Recording)} (eid : String)
    (f : Recording → Recording)
    (hf : ∀ r0, dlookup eid recs = some r0 →
       ((f r0).status = r0.status ∨ allowedStep r0.status (f r0).status = true) ∧
       r0.progress_percent ≤ (f r0).progress_percent) :
    RecordEvolves recs (dmodify eid f recs) := by
  intro k r r' hk hk'
  by_cases hke : k = eid
  · subst hke
    rw [dlookup_dmodify_self, hk] at hk'
    cases hk'
    exact hf r hk
  · rw [dlookup_dmodify_ne hke, hk] at hk'
    cases hk'
    exact ⟨Or.inl rfl, le_refl _⟩

theorem dmodify_id {α : Type} (k : String) (d : List (String × α)) :
    dmodify k (fun x => x) d = d := by
  induction d with
  | nil => rfl
  | cons hd tl ih =>
      obtain ⟨k0, v0⟩ := hd
      by_cases hk : k0 = k <;> simp [dmodify, hk, ih]

theorem dmodify_dmodify {α : Type} (k : String) (f g : α → α) (d : List (String × α)) :
    dmodify k g (dmodify k f d) = dmodify k (fun x => g (f x)) d := by
  induction d with
  | nil => rfl
  | cons hd tl ih =>
      obtain ⟨k0, v0⟩ := hd
      by_cases hk : k0 = k <;> simp [dmodify, hk, ih]

theorem owner_ne_of_owner {eid eid' : String} (h : eid' ≠ eid) {t : Tsk}
    (ht : ownerTsk eid t = true) : ownerTsk eid' t = false := by
  cases t <;> simp [ownerTsk] at ht ⊢ <;> subst ht <;> exact fun hh => h hh.symm

theorem owner_shape {eid : String} {t : Tsk} (h : ownerTsk eid t = true) :
    (∃ dur cmd, t = Tsk.startLaunch eid dur cmd) ∨
    (∃ dur, t = Tsk.monStart eid dur) ∨
    (∃ dur st w, t = Tsk.monSleep eid dur st w) := by
  cases t with
  | startLaunch e d c =>
      simp [ownerTsk] at h
      subst h
      exact Or.inl ⟨d, c, rfl⟩
  | monStart e d =>
      simp [ownerTsk] at h
      subst h
      exact Or.inr (Or.inl ⟨d, rfl⟩)
  | monSleep e d st w =>
      simp [ownerTsk] at h
      subst h
      exact Or.inr (Or.inr ⟨d, st, w, rfl⟩)
  | startReq e u n d => simp [ownerTsk] at h
  | stopReq e => simp [ownerTsk] at h
  | stopWait e => simp [ownerTsk] at h

/-- Any owner coroutine in the task list implies its event already has a
record. -/
theorem owner_record {s : Sys} (hI : Inv s) {eid : String} {t : Tsk}
    (ht : t ∈ s.tasks) (hown : ownerTsk eid t = true) :
    ∃ r, dlookup eid s.recordings = some r := by
  rcases owner_shape hown with ⟨d, c, rfl⟩ | ⟨d, rfl⟩ | ⟨d, st, w, rfl⟩
  · obtain ⟨r, hr, _⟩ := hI.launch _ ht eid d c rfl
    exact ⟨r, hr⟩
  · obtain ⟨r, hr, _⟩ := hI.monS _ ht eid d rfl
    exact ⟨r, hr⟩
  · obtain ⟨r, hr, _⟩ := hI.monW _ ht eid d st w rfl
    exact ⟨r, hr⟩

/-- If an event has no record yet, no owner coroutine for it is pending. -/
theorem no_owner_of_fresh {s : Sys} (hI : Inv s) {eid : String}
    (hfresh : dlookup eid s.recordings = none) :
    s.tasks.countP (ownerTsk eid) = 0 := by
  by_contra hne
  have hpos : 0 < s.tasks.countP (ownerTsk eid) := Nat.pos_of_ne_zero hne
  obtain ⟨t, ht, hown⟩ := List.countP_pos_iff.mp hpos
  obtain ⟨r, hr⟩ := owner_record hI ht hown
  rw [hfresh] at hr
  cases hr

/-- Invariant preservation: an owner coroutine at index `i` ends (its task is
dropped) while its record is rewritten by `f`. -/
theorem inv_drop_owner {s : Sys} (hI : Inv s) (s' : Sys) (i : Nat) (t0 : Tsk)
    (eid : String) (hti : s.tasks[i]? = some t0) (hown : ownerTsk eid t0 = true)
    (f : Recording → Recording)
    (hrec : s'.recordings = dmodify eid f s.recordings)
    (htasks : s'.tasks = dropTask i s.tasks)
    (hclock : s'.clock = s.clock)
    (hbounds : ∀ r, dlookup eid s.recordings = some r →
        0 ≤ (f r).progress_percent ∧ (f r).progress_percent ≤ 100 ∧
        ((f r).status = Status.completed → (f r).progress_percent = 100)) :
    Inv s' := by
  constructor
  · intro t ht eid' dur' cmd' hsh
    rw [htasks] at ht
    by_cases he : eid' = eid
    · subst he
      exact absurd hsh (fun hsh => no_other_owner hti hown (hI.uniq eid') ht
        (by rw [hsh]; simp [ownerTsk]))
    · have hmem : t ∈ s.tasks := (List.eraseIdx_sublist s.tasks i).subset ht
      obtain ⟨r, hr, hst, hdur, hprog⟩ := hI.launch t hmem eid' dur' cmd' hsh
      exact ⟨r, by rw [hrec, dlookup_dmodify_ne he, hr], hst, hdur, hprog⟩
  · intro t ht eid' dur' hsh
    rw [htasks] at ht
    by_cases he : eid' = eid
    · subst he
      exact absurd hsh (fun hsh => no_other_owner hti hown (hI.uniq eid') ht
        (by rw [hsh]; simp [ownerTsk]))
    · have hmem : t ∈ s.tasks := (List.eraseIdx_sublist s.tasks i).subset ht
      obtain ⟨r, hr, hst, hdur, hprog⟩ := hI.monS t hmem eid' dur' hsh
      exact ⟨r, by rw [hrec, dlookup_dmodify_ne he, hr], hst, hdur, hprog⟩
  · intro t ht eid' dur' st w hsh
    rw [htasks] at ht
    by_cases he : eid' = eid
    · subst he
      exact absurd hsh (fun hsh => no_other_owner hti hown (hI.uniq eid') ht
        (by rw [hsh]; simp [ownerTsk]))
    · have hmem : t ∈ s.tasks := (List.eraseIdx_sublist s.tasks i).subset ht
      obtain ⟨r, hr, hst, hdur, hle, hprog⟩ := hI.monW t hmem eid' dur' st w hsh
      exact ⟨r, by rw [hrec, dlookup_dmodify_ne he, hr], hst, hdur, by rw [hclock]; exact hle,
        by rw [hclock]; exact hprog⟩
  · intro eid'
    rw [htasks]
    exact le_trans ((List.eraseIdx_sublist s.tasks i).countP_le _) (hI.uniq eid')
  · intro k r hk
    rw [hrec] at hk
    by_cases hke : k = eid
    · subst hke
      rw [dlookup_dmodify_self] at hk
      rcases hr0 : dlookup k s.recordings with _ | r0
      · rw [hr0] at hk
        cases hk
      · rw [hr0] at hk
        simp only [Option.map_some'] at hk
        cases hk
        exact hbounds r0 hr0
    · rw [dlookup_dmodify_ne hke] at hk
      exact hI.bounds k r hk

/-- Invariant preservation: the owner coroutine at index `i` is replaced by
its continuation `newT` (also an owner of the same event) while the record is
rewritten by `f`. -/
theorem inv_set_owner {s : Sys} (hI : Inv s) (s' : Sys) (i : Nat) (t0 newT : Tsk)
    (eid : String) (hti : s.tasks[i]? = some t0) (hown : ownerTsk eid t0 = true)
    (hownNew : ownerTsk eid newT = true)
    (f : Recording → Recording)
    (hrec : s'.recordings = dmodify eid f s.recordings)
    (htasks : s'.tasks = setTask i newT s.tasks)
    (hclock : s'.clock = s.clock)
    (hbounds : ∀ r, dlookup eid s.recordings = some r →
        0 ≤ (f r).progress_percent ∧ (f r).progress_percent ≤ 100 ∧
        ((f r).status = Status.completed → (f r).progress_percent = 100))
    (hnewL : ∀ dur' cmd', newT = Tsk.startLaunch eid dur' cmd' →
        ∃ r, dlookup eid s'.recordings = some r ∧
          (r.status = Status.starting ∨ r.status = Status.stopped) ∧
          r.duration_minutes = dur' ∧ r.progress_percent = 0)
    (hnewS : ∀ dur', newT = Tsk.monStart eid dur' →
        ∃ r, dlookup eid s'.recordings = some r ∧
          (r.status = Status.recording ∨ r.status = Status.stopped) ∧
          r.duration_minutes = dur' ∧ r.progress_percent = 0)
    (hnewW : ∀ dur' st w, newT = Tsk.monSleep eid dur' st w →
        ∃ r, dlookup eid s'.recordings = some r ∧
          (r.status = Status.recording ∨ r.status = Status.stopped) ∧
          r.duration_minutes = dur' ∧ st ≤ s'.clock ∧
          r.progress_percent ≤ progBound s'.clock st dur') :
    Inv s' := by
  constructor
  · intro t ht eid' dur' cmd' hsh
    rw [htasks] at ht
    rcases mem_set_elim ht with h | h
    · subst h
      have he : eid' = eid := by
        rw [hsh] at hownNew
        simpa [ownerTsk] using hownNew
      subst he
      exact hnewL dur' cmd' hsh
    · by_cases he : eid' = eid
      · subst he
        exact absurd hsh (fun hsh => no_other_owner hti hown (hI.uniq eid') h
          (by rw [hsh]; simp [ownerTsk]))
      · have hmem : t ∈ s.tasks := (List.eraseIdx_sublist s.tasks i).subset h
        obtain ⟨r, hr, hst, hdur, hprog⟩ := hI.launch t hmem eid' dur' cmd' hsh
        exact ⟨r, by rw [hrec, dlookup_dmodify_ne he, hr], hst, hdur, hprog⟩
  · intro t ht eid' dur' hsh
    rw [htasks] at ht
    rcases mem_set_elim ht with h | h
    · subst h
      have he : eid' = eid := by
        rw [hsh] at hownNew
        simpa [ownerTsk] using hownNew
      subst he
      exact hnewS dur' hsh
    · by_cases he : eid' = eid
      · subst he
        exact absurd hsh (fun hsh => no_other_owner hti hown (hI.uniq eid') h
          (by rw [hsh]; simp [ownerTsk]))
      · have hmem : t ∈ s.tasks := (List.eraseIdx_sublist s.tasks i).subset h
        obtain ⟨r, hr, hst, hdur, hprog⟩ := hI.monS t hmem eid' dur' hsh
        exact ⟨r, by rw [hrec, dlookup_dmodify_ne he, hr], hst, hdur, hprog⟩
  · intro t ht eid' dur' st w hsh
    rw [htasks] at ht
    rcases mem_set_elim ht with h | h
    · subst h
      have he : eid' = eid := by
        rw [hsh] at hownNew
        simpa [ownerTsk] using hownNew
      subst he
      exact hnewW dur' st w hsh
    · by_cases he : eid' = eid
      · subst he
        exact absurd hsh (fun hsh => no_other_owner hti hown (hI.uniq eid') h
          (by rw [hsh]; simp [ownerTsk]))
      · have hmem : t ∈ s.tasks := (List.eraseIdx_sublist s.tasks i).subset h
        obtain ⟨r, hr, hst, hdur, hle, hprog⟩ := hI.monW t hmem eid' dur' st w hsh
        exact ⟨r, by rw [hrec, dlookup_dmodify_ne he, hr], hst, hdur,
          by rw [hclock]; exact hle, by rw [hclock]; exact hprog⟩
  · intro eid'
    rw [htasks]
    simp only [setTask]
    by_cases he : eid' = eid
    · subst he
      rw [countP_set_eq_of_pos (ownerTsk eid') s.tasks i t0 newT hti hown hownNew]
      exact hI.uniq eid'
    · exact le_trans
        (countP_set_le_of_neg (ownerTsk eid') s.tasks i newT (owner_ne_of_owner he hownNew))
        (hI.uniq eid')
  · intro k r hk
    rw [hrec] at hk
    by_cases hke : k = eid
    · subst hke
      rw [dlookup_dmodify_self] at hk
      rcases hr0 : dlookup k s.recordings with _ | r0
      · rw [hr0] at hk
        cases hk
      · rw [hr0] at hk
        simp only [Option.map_some'] at hk
        cases hk
        exact hbounds r0 hr0
    · rw [dlookup_dmodify_ne hke] at hk
      exact hI.bounds k r hk

/-- Invariant preservation for the status write of `stop_recording`: a
`stopped` status is compatible with every owner coroutine's expectations. -/
theorem inv_stop_write {s : Sys} (hI : Inv s) (s' : Sys) (eid : String)
    (hrec : s'.recordings =
      dmodify eid (fun r => { r with status := Status.stopped }) s.recordings)
    (hmem : ∀ t ∈ s'.tasks, t ∈ s.tasks)
    (hcnt : ∀ e, s'.tasks.countP (ownerTsk e) ≤ s.tasks.countP (ownerTsk e))
    (hclock : s'.clock = s.clock) : Inv s' := by
  constructor
  · intro t ht eid' dur' cmd' hsh
    obtain ⟨r, hr, hst, hdur, hprog⟩ := hI.launch t (hmem t ht) eid' dur' cmd' hsh
    by_cases he : eid' = eid
    · subst he
      refine ⟨{ r with status := Status.stopped }, ?_, Or.inr rfl, hdur, hprog⟩
      rw [hrec, dlookup_dmodify_self, hr]
      rfl
    · exact ⟨r, by rw [hrec, dlookup_dmodify_ne he, hr], hst, hdur, hprog⟩
  · intro t ht eid' dur' hsh
    obtain ⟨r, hr, hst, hdur, hprog⟩ := hI.monS t (hmem t ht) eid' dur' hsh
    by_cases he : eid' = eid
    · subst he
      refine ⟨{ r with status := Status.stopped }, ?_, Or.inr rfl, hdur, hprog⟩
      rw [hrec, dlookup_dmodify_self, hr]
      rfl
    · exact ⟨r, by rw [hrec, dlookup_dmodify_ne he, hr], hst, hdur, hprog⟩
  · intro t ht eid' dur' st w hsh
    obtain ⟨r, hr, hst, hdur, hle, hprog⟩ := hI.monW t (hmem t ht) eid' dur' st w hsh
    by_cases he : eid' = eid
    · subst he
      refine ⟨{ r with status := Status.stopped }, ?_, Or.inr rfl, hdur,
        by rw [hclock]; exact hle, by rw [hclock]; exact hprog⟩
      rw [hrec, dlookup_dmodify_self, hr]
      rfl
    · exact ⟨r, by rw [hrec, dlookup_dmodify_ne he, hr], hst, hdur,
        by rw [hclock]; exact hle, by rw [hclock]; exact hprog⟩
  · intro e
    exact le_trans (hcnt e) (hI.uniq e)
  · intro k r hk
    rw [hrec] at hk
    by_cases hke : k = eid
    · subst hke
      rw [dlookup_dmodify_self] at hk
      rcases hr0 : dlookup k s.recordings with _ | r0
      · rw [hr0] at hk
        cases hk
      · rw [hr0] at hk
        simp only [Option.map_some'] at hk
        cases hk
        obtain ⟨h1, h2, _⟩ := hI.bounds k r0 hr0
        exact ⟨h1, h2, by intro h; cases h⟩
    · rw [dlookup_dmodify_ne hke] at hk
      exact hI.bounds k r hk

/-- The stop status write only moves records along allowed transitions. -/
theorem recordEvolves_stop (recs : List (String × Recording)) (eid : String) :
    RecordEvolves recs
      (dmodify eid (fun r => { r with status := Status.stopped }) recs) := by
  apply recordEvolves_of_dmodify
  intro r0 _
  refine ⟨?_, le_refl _⟩
  cases h : r0.status <;> simp [allowedStep]

/-- Invariant preservation under the passage of time. -/
theorem inv_tick {s : Sys} (hI : Inv s) (d : Nat) :
    Inv { s with clock := s.clock + d } := by
  constructor
  · intro t ht eid dur cmd hsh
    exact hI.launch t ht eid dur cmd hsh
  · intro t ht eid dur hsh
    exact hI.monS t ht eid dur hsh
  · intro t ht eid dur st w hsh
    obtain ⟨r, hr, hst, hdur, hle, hprog⟩ := hI.monW t ht eid dur st w hsh
    refine ⟨r, hr, hst, hdur, le_trans hle (Nat.le_add_right _ _), ?_⟩
    exact le_trans hprog (progBound_mono st dur (Nat.le_add_right _ _))
  · intro e
    exact hI.uniq e
  · intro k r hk
    exact hI.bounds k r hk

/-- Invariant preservation for an admitted fresh start: the record is
inserted with status `starting` and the request coroutine becomes the
pending launch. -/
theorem inv_fresh_insert {s : Sys} (hI : Inv s) (s' : Sys) (i : Nat)
    (eid url name : String) (dur : Nat) (cmd : List String)
    (hti : s.tasks[i]? = some (Tsk.startReq eid url name dur))
    (hfresh : dlookup eid s.recordings = none)
    (hrec : s'.recordings =
      dinsert eid (freshRecording eid name dur s.output_path s.clock) s.recordings)
    (htasks : s'.tasks = setTask i (Tsk.startLaunch eid dur cmd) s.tasks)
    (hclock : s'.clock = s.clock) : Inv s' := by
  constructor
  · intro t ht e d c hsh
    rw [htasks] at ht
    rcases mem_set_elim ht with hn | hn
    · rw [hsh] at hn
      injection hn with h1 h2 h3
      have h1' := h1.symm
      subst h1'
      have h2' := h2.symm
      subst h2'
      refine ⟨freshRecording eid name dur s.output_path s.clock, ?_, Or.inl rfl, rfl, rfl⟩
      rw [hrec]
      exact dlookup_dinsert_self eid _ s.recordings
    · have hmem : t ∈ s.tasks := (List.eraseIdx_sublist s.tasks i).subset hn
      obtain ⟨r, hr, hst, hdur, hprog⟩ := hI.launch t hmem e d c hsh
      by_cases he : e = eid
      · subst he
        rw [hfresh] at hr
        cases hr
      · exact ⟨r, by rw [hrec, dlookup_dinsert_ne he, hr], hst, hdur, hprog⟩
  · intro t ht e d hsh
    rw [htasks] at ht
    rcases mem_set_elim ht with hn | hn
    · rw [hsh] at hn
      cases hn
    · have hmem : t ∈ s.tasks := (List.eraseIdx_sublist s.tasks i).subset hn
      obtain ⟨r, hr, hst, hdur, hprog⟩ := hI.monS t hmem e d hsh
      by_cases he : e = eid
      · subst he
        rw [hfresh] at hr
        cases hr
      · exact ⟨r, by rw [hrec, dlookup_dinsert_ne he, hr], hst, hdur, hprog⟩
  · intro t ht e d st w hsh
    rw [htasks] at ht
    rcases mem_set_elim ht with hn | hn
    · rw [hsh] at hn
      cases hn
    · have hmem : t ∈ s.tasks := (List.eraseIdx_sublist s.tasks i).subset hn
      obtain ⟨r, hr, hst, hdur, hle, hprog⟩ := hI.monW t hmem e d st w hsh
      by_cases he : e = eid
      · subst he
        rw [hfresh] at hr
        cases hr
      · exact ⟨r, by rw [hrec, dlookup_dinsert_ne he, hr], hst, hdur,
          by rw [hclock]; exact hle, by rw [hclock]; exact hprog⟩
  · intro e
    rw [htasks]
    simp only [setTask]
    by_cases he : e = eid
    · subst he
      have h0 := no_owner_of_fresh hI hfresh
      have hle := countP_set_le (ownerTsk e) s.tasks i (Tsk.startLaunch e dur cmd)
      rw [h0] at hle
      exact le_trans hle (by split <;> omega)
    · refine le_trans (countP_set_le_of_neg (ownerTsk e) s.tasks i _ ?_) (hI.uniq e)
      simp [ownerTsk]
      intro hh
      exact absurd hh.symm he
  · intro k r hk
    rw [hrec] at hk
    by_cases hke : k = eid
    · subst hke
      rw [dlookup_dinsert_self] at hk
      cases hk
      refine ⟨le_refl 0, by show (0:ℚ) ≤ 100; norm_num, ?_⟩
      intro hc
      simp [freshRecording] at hc
    · rw [dlookup_dinsert_ne hke] at hk
      exact hI.bounds k r hk

theorem step_startReq {s s' : Sys} {i : Nat} {eid url name : String} {dur : Nat}
    {o : LaunchOutcome} (hI : Inv s)
    (hti : s.tasks[i]? = some (Tsk.startReq eid url name dur))
    (h : runTask1 (Tsk.startReq eid url name dur) i o s = some s') :
    Inv s' ∧ RecordEvolves s.recordings s'.recordings := by
  rw [runTask1] at h
  by_cases hcap : s.max_concurrent ≤ activeCount s
  · rw [if_pos hcap] at h
    have hX := Option.some.inj h
    refine ⟨inv_of_eq hI s' (by rw [← hX]; try rfl) (by rw [← hX]; try rfl) ?_ ?_, ?_⟩
    · intro t ht
      rw [← hX] at ht
      exact Or.inl ((List.eraseIdx_sublist s.tasks i).subset ht)
    · intro e
      rw [← hX]; try rfl
      exact (List.eraseIdx_sublist s.tasks i).countP_le _
    · exact recordEvolves_of_eq (by rw [← hX]; try rfl)
  · rw [if_neg hcap] at h
    rcases hfr : dlookup eid s.recordings with _ | r0
    · simp only [start_seg1, hfr] at h
      have hX := Option.some.inj h
      refine ⟨inv_fresh_insert hI s' i eid url name dur _ hti hfr
        (by rw [← hX]; try rfl) (by rw [← hX]; try rfl) (by rw [← hX]; try rfl), ?_⟩
      intro k r r' hk hk'
      rw [← hX] at hk'
      by_cases hke : k = eid
      · subst hke
        rw [hfr] at hk
        cases hk
      · rw [show ({ s with
            recordings := dinsert eid (freshRecording eid name dur s.output_path s.clock) s.recordings,
            tasks := setTask i (Tsk.startLaunch eid dur
              (buildCmd url dur (freshRecording eid name dur s.output_path s.clock).hls_path
                (freshRecording eid name dur s.output_path s.clock).mp4_path)) s.tasks } : Sys).recordings =
            dinsert eid (freshRecording eid name dur s.output_path s.clock) s.recordings from rfl,
          dlookup_dinsert_ne hke, hk] at hk'
        cases hk'
        exact ⟨Or.inl rfl, le_refl _⟩
    · simp only [start_seg1, hfr] at h
      have hX := Option.some.inj h
      refine ⟨inv_of_eq hI s' (by rw [← hX]; try rfl) (by rw [← hX]; try rfl) ?_ ?_, ?_⟩
      · intro t ht
        rw [← hX] at ht
        exact Or.inl ((List.eraseIdx_sublist s.tasks i).subset ht)
      · intro e
        rw [← hX]; try rfl
        exact (List.eraseIdx_sublist s.tasks i).countP_le _
      · exact recordEvolves_of_eq (by rw [← hX]; try rfl)

theorem step_startLaunch {s s' : Sys} {i : Nat} {eid : String} {dur : Nat}
    {cmd : List String} {o : LaunchOutcome} (hI : Inv s)
    (hti : s.tasks[i]? = some (Tsk.startLaunch eid dur cmd))
    (h : runTask1 (Tsk.startLaunch eid dur cmd) i o s = some s') :
    Inv s' ∧ RecordEvolves s.recordings s'.recordings := by
  obtain ⟨r1, hr1, hst, hdur, hprog⟩ :=
    hI.launch _ (List.getElem?_mem hti) eid dur cmd rfl
  cases o with
  | ok =>
      rw [runTask1] at h
      simp only [hr1] at h
      have hX := Option.some.inj h
      have hre : s'.recordings =
          dmodify eid (fun r0 => { r0 with status := Status.recording }) s.recordings := by
        rw [← hX]; try rfl
      have hscl : s'.clock = s.clock := by rw [← hX]; try rfl
      refine ⟨inv_set_owner hI s' i _ (Tsk.monStart eid dur) eid hti
        (by simp [ownerTsk]) (by simp [ownerTsk])
        (fun r0 => { r0 with status := Status.recording })
        hre (by rw [← hX]; try rfl) hscl ?_ ?_ ?_ ?_, ?_⟩
      · intro r0 hr0
        rw [hr1] at hr0
        cases hr0
        obtain ⟨hb1, hb2, _⟩ := hI.bounds eid r1 hr1
        exact ⟨hb1, hb2, by intro hc; simp at hc⟩
      · intro d' c' hsh
        exact absurd hsh (by simp)
      · intro d' hsh
        injection hsh with h1 h2
        have h2' := h2.symm
        subst h2'
        refine ⟨{ r1 with status := Status.recording }, ?_, Or.inl rfl, hdur, hprog⟩
        rw [hre, dlookup_dmodify_self, hr1]
        rfl
      · intro d' st w hsh
        exact absurd hsh (by simp)
      · rw [hre]
        apply recordEvolves_of_dmodify
        intro r0 hr0
        rw [hr1] at hr0
        cases hr0
        refine ⟨Or.inr ?_, le_refl _⟩
        rcases hst with hst | hst <;> rw [hst] <;> rfl
  | err m =>
      rw [runTask1] at h
      simp only [hr1] at h
      have hX := Option.some.inj h
      have hre : s'.recordings = dmodify eid
          (fun r0 => { r0 with status := Status.failed, error := some m }) s.recordings := by
        rw [← hX]; try rfl
      refine ⟨inv_drop_owner hI s' i _ eid hti (by simp [ownerTsk])
        (fun r0 => { r0 with status := Status.failed, error := some m })
        hre (by rw [← hX]; try rfl) (by rw [← hX]; try rfl) ?_, ?_⟩
      · intro r0 hr0
        rw [hr1] at hr0
        cases hr0
        obtain ⟨hb1, hb2, _⟩ := hI.bounds eid r1 hr1
        exact ⟨hb1, hb2, by intro hc; simp at hc⟩
      · rw [hre]
        apply recordEvolves_of_dmodify
        intro r0 hr0
        rw [hr1] at hr0
        cases hr0
        refine ⟨Or.inr ?_, le_refl _⟩
        rcases hst with hst | hst <;> rw [hst] <;> rfl

theorem step_monStart {s s' : Sys} {i : Nat} {eid : String} {dur : Nat}
    {o : LaunchOutcome} (hI : Inv s)
    (hti : s.tasks[i]? = some (Tsk.monStart eid dur))
    (h : runTask1 (Tsk.monStart eid dur) i o s = some s') :
    Inv s' ∧ RecordEvolves s.recordings s'.recordings := by
  rw [runTask1] at h
  rcases hp : dlookup eid s.procs with _ | p
  · rw [hp] at h
    cases h
  · simp only [hp] at h
    obtain ⟨r, hr, hst, hdur, hprog⟩ := hI.monS _ (List.getElem?_mem hti) eid dur rfl
    rcases hrc : p.returncode with _ | rc
    · simp only [hrc] at h
      have hX := Option.some.inj h
      have hsrec : s'.recordings = s.recordings := by rw [← hX]; try rfl
      have hscl : s'.clock = s.clock := by rw [← hX]; try rfl
      refine ⟨inv_set_owner hI s' i _ (Tsk.monSleep eid dur s.clock (s.clock + 10)) eid hti
        (by simp [ownerTsk]) (by simp [ownerTsk]) (fun r0 => r0)
        (by rw [hsrec]; exact (dmodify_id eid s.recordings).symm) (by rw [← hX]; try rfl) hscl
        ?_ ?_ ?_ ?_, recordEvolves_of_eq hsrec⟩
      · intro r0 hr0
        exact hI.bounds eid r0 hr0
      · intro d' c' hsh
        exact absurd hsh (by simp)
      · intro d' hsh
        exact absurd hsh (by simp)
      · intro d' st w hsh
        injection hsh with h1 h2 h3 h4
        have h2' := h2.symm
        subst h2'
        have h3' := h3.symm
        subst h3'
        refine ⟨r, by rw [hsrec]; exact hr, hst, hdur, ?_, ?_⟩
        · rw [hscl]
        · rw [hscl, hprog]
          exact progBound_nonneg _ _ _
    · simp only [hrc] at h
      have hX := Option.some.inj h
      have hre : s'.recordings = dmodify eid (finishF s.clock) s.recordings := by
        rw [← hX]; try rfl
      refine ⟨inv_drop_owner hI s' i _ eid hti (by simp [ownerTsk]) _
        hre (by rw [← hX]; try rfl) (by rw [← hX]; try rfl) ?_, ?_⟩
      · intro r0 hr0
        refine ⟨by show (0:ℚ) ≤ 100; norm_num, le_refl _, fun _ => rfl⟩
      · rw [hre]
        apply recordEvolves_of_dmodify
        intro r0 hr0
        rw [hr] at hr0
        cases hr0
        obtain ⟨_, hb2, _⟩ := hI.bounds eid r hr
        refine ⟨Or.inr ?_, hb2⟩
        rcases hst with hst | hst <;> rw [hst] <;> rfl

theorem step_monSleep {s s' : Sys} {i : Nat} {eid : String} {dur startT wakeAt : Nat}
    {o : LaunchOutcome} (hI : Inv s)
    (hti : s.tasks[i]? = some (Tsk.monSleep eid dur startT wakeAt))
    (h : runTask1 (Tsk.monSleep eid dur startT wakeAt) i o s = some s') :
    Inv s' ∧ RecordEvolves s.recordings s'.recordings := by
  rw [runTask1] at h
  by_cases hwk : s.clock < wakeAt
  · rw [if_pos hwk] at h
    cases h
  · rw [if_neg hwk] at h
    obtain ⟨r, hr, hst, hdur, hstt, hprog⟩ :=
      hI.monW _ (List.getElem?_mem hti) eid dur startT wakeAt rfl
    simp only [hr] at h
    rcases hp : dlookup eid s.procs with _ | p
    · rw [hp] at h
      cases h
    · simp only [hp] at h
      rcases hrc : p.returncode with _ | rc
      · simp only [hrc] at h
        have hX := Option.some.inj h
        have hre : s'.recordings = dmodify eid
            (fun r0 => { r0 with progress_percent := progBound s.clock startT dur })
            s.recordings := by
          rw [← hX]; try rfl
        have hscl : s'.clock = s.clock := by rw [← hX]; try rfl
        refine ⟨inv_set_owner hI s' i _ (Tsk.monSleep eid dur startT (s.clock + 10)) eid hti
          (by simp [ownerTsk]) (by simp [ownerTsk])
          (fun r0 => { r0 with progress_percent := progBound s.clock startT dur })
          hre (by rw [← hX]; try rfl) hscl ?_ ?_ ?_ ?_, ?_⟩
        · intro r0 hr0
          rw [hr] at hr0
          cases hr0
          refine ⟨progBound_nonneg _ _ _, progBound_le_100 _ _ _, ?_⟩
          intro hc
          have hc' : r.status = Status.completed := hc
          rcases hst with hst | hst <;> rw [hst] at hc' <;> cases hc'
        · intro d' c' hsh
          exact absurd hsh (by simp)
        · intro d' hsh
          exact absurd hsh (by simp)
        · intro d' st' w' hsh
          injection hsh with h1 h2 h3 h4
          subst h2
          subst h3
          refine ⟨{ r with progress_percent := progBound s.clock startT dur }, ?_, hst, hdur,
            ?_, ?_⟩
          · rw [hre, dlookup_dmodify_self, hr]
            rfl
          · rw [hscl]
            exact hstt
          · rw [hscl]
        · rw [hre]
          apply recordEvolves_of_dmodify
          intro r0 hr0
          rw [hr] at hr0
          cases hr0
          exact ⟨Or.inl rfl, hprog⟩
      · simp only [hrc] at h
        have hX := Option.some.inj h
        have hre0 : s'.recordings = dmodify eid (finishF s.clock)
            (dmodify eid (fun r0 => { r0 with progress_percent := progBound s.clock startT dur })
              s.recordings) := by
          rw [← hX]; try rfl
        rw [dmodify_dmodify] at hre0
        refine ⟨inv_drop_owner hI s' i _ eid hti (by simp [ownerTsk]) _
          hre0 (by rw [← hX]; try rfl) (by rw [← hX]; try rfl) ?_, ?_⟩
        · intro r0 hr0
          refine ⟨by show (0:ℚ) ≤ 100; norm_num, le_refl _, fun _ => rfl⟩
        · rw [hre0]
          apply recordEvolves_of_dmodify
          intro r0 hr0
          rw [hr] at hr0
          cases hr0
          obtain ⟨_, hb2, _⟩ := hI.bounds eid r hr
          refine ⟨Or.inr ?_, hb2⟩
          rcases hst with hst | hst <;> rw [hst] <;> rfl

theorem step_stopReq {s s' : Sys} {i : Nat} {eid : String} {o : LaunchOutcome} (hI : Inv s)
    (hti : s.tasks[i]? = some (Tsk.stopReq eid))
    (h : runTask1 (Tsk.stopReq eid) i o s = some s') :
    Inv s' ∧ RecordEvolves s.recordings s'.recordings := by
  rw [runTask1] at h
  by_cases hh : s.handles.contains eid
  · rw [if_pos hh] at h
    have hX := Option.some.inj h
    have htks : s'.tasks = setTask i (Tsk.stopWait eid) s.tasks := by rw [← hX]; try rfl
    refine ⟨inv_of_eq hI s' (by rw [← hX]; try rfl) (by rw [← hX]; try rfl) ?_ ?_,
      recordEvolves_of_eq (by rw [← hX]; try rfl)⟩
    · intro t ht
      rw [htks] at ht
      rcases mem_set_elim ht with hn | hn
      · exact Or.inr (by rw [hn]; intro e; rfl)
      · exact Or.inl ((List.eraseIdx_sublist s.tasks i).subset hn)
    · intro e
      rw [htks]
      simp only [setTask]
      exact countP_set_le_of_neg _ _ _ _ rfl
  · rw [if_neg hh] at h
    have hX := Option.some.inj h
    have htks : s'.tasks = dropTask i s.tasks := by rw [← hX]; try rfl
    refine ⟨inv_stop_write hI s' eid (by rw [← hX]; try rfl) ?_ ?_ (by rw [← hX]; try rfl), ?_⟩
    · intro t ht
      rw [htks] at ht
      exact (List.eraseIdx_sublist s.tasks i).subset ht
    · intro e
      rw [htks]
      exact (List.eraseIdx_sublist s.tasks i).countP_le _
    · have hre : s'.recordings =
          dmodify eid (fun r => { r with status := Status.stopped }) s.recordings := by
        rw [← hX]; try rfl
      rw [hre]
      exact recordEvolves_stop s.recordings eid

theorem step_stopWait {s s' : Sys} {i : Nat} {eid : String} {o : LaunchOutcome} (hI : Inv s)
    (hti : s.tasks[i]? = some (Tsk.stopWait eid))
    (h : runTask1 (Tsk.stopWait eid) i o s = some s') :
    Inv s' ∧ RecordEvolves s.recordings s'.recordings := by
  rw [runTask1] at h
  rcases hp : dlookup eid s.procs with _ | p
  · rw [hp] at h
    cases h
  · simp only [hp] at h
    rcases hrc : p.returncode with _ | rc
    · rw [hrc] at h
      cases h
    · simp only [hrc] at h
      by_cases hh : s.handles.contains eid
      · rw [if_pos hh] at h
        have hX := Option.some.inj h
        have htks : s'.tasks = dropTask i s.tasks := by rw [← hX]; try rfl
        refine ⟨inv_stop_write hI s' eid (by rw [← hX]; try rfl) ?_ ?_ (by rw [← hX]; try rfl), ?_⟩
        · intro t ht
          rw [htks] at ht
          exact (List.eraseIdx_sublist s.tasks i).subset ht
        · intro e
          rw [htks]
          exact (List.eraseIdx_sublist s.tasks i).countP_le _
        · have hre : s'.recordings =
              dmodify eid (fun r => { r with status := Status.stopped }) s.recordings := by
            rw [← hX]; try rfl
          rw [hre]
          exact recordEvolves_stop s.recordings eid
      · rw [if_neg hh] at h
        have hX := Option.some.inj h
        have htks : s'.tasks = dropTask i s.tasks := by rw [← hX]; try rfl
        refine ⟨inv_of_eq hI s' (by rw [← hX]; try rfl) (by rw [← hX]; try rfl) ?_ ?_,
          recordEvolves_of_eq (by rw [← hX]; try rfl)⟩
        · intro t ht
          rw [htks] at ht
          exact Or.inl ((List.eraseIdx_sublist s.tasks i).subset ht)
        · intro e
          rw [htks]
          exact (List.eraseIdx_sublist s.tasks i).countP_le _

/-- Every enabled step preserves the invariant and moves each record only
along allowed status transitions with non-decreasing progress. -/
theorem step_ok {s s' : Sys} {a : Act} (hI : Inv s) (hstep : runAct a s = some s') :
    Inv s' ∧ RecordEvolves s.recordings s'.recordings := by
  cases a with
  | submitStart eid url name dur =>
      rw [runAct] at hstep
      have hX := Option.some.inj hstep
      have htks : s'.tasks = s.tasks ++ [Tsk.startReq eid url name dur] := by
        rw [← hX]
      refine ⟨inv_of_eq hI s' (by rw [← hX]; try rfl) (by rw [← hX]; try rfl) ?_ ?_,
        recordEvolves_of_eq (by rw [← hX]; try rfl)⟩
      · intro t ht
        rw [htks] at ht
        rcases List.mem_append.mp ht with hm | hm
        · exact Or.inl hm
        · simp at hm
          subst hm
          exact Or.inr (fun e => rfl)
      · intro e
        rw [htks, List.countP_append]
        simp [ownerTsk]
  | submitStop eid =>
      rw [runAct] at hstep
      have hX := Option.some.inj hstep
      have htks : s'.tasks = s.tasks ++ [Tsk.stopReq eid] := by
        rw [← hX]
      refine ⟨inv_of_eq hI s' (by rw [← hX]; try rfl) (by rw [← hX]; try rfl) ?_ ?_,
        recordEvolves_of_eq (by rw [← hX]; try rfl)⟩
      · intro t ht
        rw [htks] at ht
        rcases List.mem_append.mp ht with hm | hm
        · exact Or.inl hm
        · simp at hm
          subst hm
          exact Or.inr (fun e => rfl)
      · intro e
        rw [htks, List.countP_append]
        simp [ownerTsk]
  | runTask i o =>
      rw [runAct] at hstep
      rcases hti : s.tasks[i]? with _ | t
      · rw [hti] at hstep
        cases hstep
      · simp only [hti] at hstep
        cases t with
        | startReq eid url name dur => exact step_startReq hI hti hstep
        | startLaunch eid dur cmd => exact step_startLaunch hI hti hstep
        | monStart eid dur => exact step_monStart hI hti hstep
        | monSleep eid dur st w => exact step_monSleep hI hti hstep
        | stopReq eid => exact step_stopReq hI hti hstep
        | stopWait eid => exact step_stopWait hI hti hstep
  | procExit eid rc =>
      rw [runAct] at hstep
      rcases hp : dlookup eid s.procs with _ | p
      · rw [hp] at hstep
        cases hstep
      · simp only [hp] at hstep
        rcases hrc : p.returncode with _ | rc0
        · simp only [hrc] at hstep
          have hX := Option.some.inj hstep
          have htks : s'.tasks = s.tasks := by
            rw [← hX]
          refine ⟨inv_of_eq hI s' (by rw [← hX]; try rfl) (by rw [← hX]; try rfl) ?_ ?_,
            recordEvolves_of_eq (by rw [← hX]; try rfl)⟩
          · intro t ht
            rw [htks] at ht
            exact Or.inl ht
          · intro e
            rw [htks]
        · rw [hrc] at hstep
          cases hstep
  | tick d =>
      rw [runAct] at hstep
      have hX := Option.some.inj hstep
      exact ⟨hX ▸ inv_tick hI d, recordEvolves_of_eq (by rw [← hX]; try rfl)⟩

/-- The invariant holds in every reachable state. -/
theorem inv_reachable {mc : Nat} {out : String} {s : Sys}
    (h : Reachable (initSys mc out) s) : Inv s := by
  induction h with
  | refl => exact inv_init mc out
  | tail _ hstep ih =>
      obtain ⟨a, ha⟩ := hstep
      exact (step_ok ih ha).1

/-- Executing a trace witnesses reachability. -/
theorem runTrace_reachable (acts : List Act) (s s' : Sys)
    (h : runTrace acts s = some s') : Reachable s s' := by
  induction acts generalizing s with
  | nil =>
      rw [runTrace] at h
      cases h
      exact Relation.ReflTransGen.refl
  | cons a rest ih =>
      rw [runTrace] at h
      rcases ha : runAct a s with _ | s1
      · rw [ha] at h
        cases h
      · rw [ha] at h
        exact Relation.ReflTransGen.head ⟨a, ha⟩ (ih s1 h)

/-- C3 (amended): in every reachable state, one step moves a record's status
either not at all or along `allowedStep`: forward through
starting → recording → (completed | stopped | failed), except that a stop may
overwrite any status (including terminal ones) with `stopped`, the monitor's
unconditional terminal write may overwrite `stopped` with `completed`, and
the launch continuation racing a stop may overwrite `stopped` with
`recording` or `failed`. -/
theorem C3_status_transitions (mc : Nat) (out : String) (s s' : Sys) (a : Act)
    (hreach : Reachable (initSys mc out) s) (hstep : runAct a s = some s')
    (k : String) (r r' : Recording)
    (hr : dlookup k s.recordings = some r) (hr' : dlookup k s'.recordings = some r') :
    r'.status = r.status ∨ allowedStep r.status r'.status = true :=
  ((step_ok (inv_reachable hreach) hstep).2 k r r' hr hr').1

/-- The concrete interleavings used by counterexamples: a recording that the
monitor completes, then a stop arriving afterwards. -/
def c3trace1 : List Act :=
  [Act.submitStart "e" "u" "n" 1,
   Act.runTask 0 LaunchOutcome.ok,
   Act.runTask 0 LaunchOutcome.ok,
   Act.procExit "e" 0,
   Act.runTask 0 LaunchOutcome.ok]

def c3trace2 : List Act := c3trace1 ++ [Act.submitStop "e", Act.runTask 0 LaunchOutcome.ok]

/-- C3 counterexample: the claim "once terminal, the status never changes"
fails on the code: after the monitor sets `completed` (terminal), a stop
request still rewrites the status to `stopped`. -/
theorem C3_counterexample :
    ∃ s1 s2, runTrace c3trace1 (initSys 2 "o") = some s1 ∧
      runTrace c3trace2 (initSys 2 "o") = some s2 ∧
      (dlookup "e" s1.recordings).map (fun r => r.status) = some Status.completed ∧
      (dlookup "e" s2.recordings).map (fun r => r.status) = some Status.stopped :=
  ⟨(runTrace c3trace1 (initSys 2 "o")).getD (initSys 2 "o"),
   (runTrace c3trace2 (initSys 2 "o")).getD (initSys 2 "o"),
   rfl, rfl, by decide, by decide⟩

/-- The pre- and post-state of the concrete stop step used as C3 witness. -/
def c3wsys : Sys :=
  (runTrace (c3trace1 ++ [Act.submitStop "e"]) (initSys 2 "o")).getD (initSys 2 "o")

def c3wsys' : Sys :=
  (runAct (Act.runTask 0 LaunchOutcome.ok) c3wsys).getD (initSys 2 "o")

def c3wr : Recording := (dlookup "e" c3wsys.recordings).getD demoRec

def c3wr' : Recording := (dlookup "e" c3wsys'.recordings).getD demoRec

/-- Witness for the amended C3 at a concrete reachable step (a stop on a
completed record). -/
theorem C3_witness :
    c3wr'.status = c3wr.status ∨ allowedStep c3wr.status c3wr'.status = true :=
  C3_status_transitions 2 "o" c3wsys c3wsys' (Act.runTask 0 LaunchOutcome.ok)
    (runTrace_reachable (c3trace1 ++ [Act.submitStop "e"]) (initSys 2 "o") c3wsys rfl)
    rfl "e" c3wr c3wr' rfl rfl

/-- A monitor wake-up with the process still running writes exactly
`min(100, elapsed / (duration*60) * 100)` into the record (manager.py lines
127-129), `elapsed` being the wall-clock time since the monitor started. -/
theorem monitor_tick_formula {s s' : Sys} {i : Nat} {eid : String}
    {dur startT wakeAt : Nat} {o : LaunchOutcome} {p : Proc} {r : Recording}
    (hti : s.tasks[i]? = some (Tsk.monSleep eid dur startT wakeAt))
    (hwk : wakeAt ≤ s.clock)
    (hr : dlookup eid s.recordings = some r)
    (hp : dlookup eid s.procs = some p) (hrc : p.returncode = none)
    (hstep : runAct (Act.runTask i o) s = some s') :
    dlookup eid s'.recordings =
      some { r with progress_percent := progBound s.clock startT dur } := by
  rw [runAct] at hstep
  simp only [hti] at hstep
  rw [runTask1] at hstep
  rw [if_neg (by omega)] at hstep
  simp only [hr, hp, hrc] at hstep
  have hX := Option.some.inj hstep
  have hre : s'.recordings = dmodify eid
      (fun r0 => { r0 with progress_percent := progBound s.clock startT dur })
      s.recordings := by
    rw [← hX]; try rfl
  rw [hre, dlookup_dmodify_self, hr]
  rfl

/-- C7: along every reachable step, (1) each record's progress is
non-decreasing, (2) a record whose status is `completed` has progress exactly
100, and (3) a monitor wake-up with the process still running writes
`min(100, elapsed / (duration_minutes*60) * 100)` where `elapsed` is the
wall-clock time since the monitor started.  (The positivity hypothesis on the
duration marks that the source raises `ZeroDivisionError` for a zero
duration, where the spec formula is undefined.) -/
theorem C7_monitor_progress (mc : Nat) (out : String) (s s' : Sys) (a : Act)
    (hreach : Reachable (initSys mc out) s) (hstep : runAct a s = some s') :
    (∀ k r r', dlookup k s.recordings = some r → dlookup k s'.recordings = some r' →
        r.progress_percent ≤ r'.progress_percent) ∧
    (∀ k r', dlookup k s'.recordings = some r' → r'.status = Status.completed →
        r'.progress_percent = 100) ∧
    (∀ i o eid dur startT wakeAt p r, a = Act.runTask i o →
        s.tasks[i]? = some (Tsk.monSleep eid dur startT wakeAt) → wakeAt ≤ s.clock →
        dlookup eid s.recordings = some r → dlookup eid s.procs = some p →
        p.returncode = none → 0 < dur →
        dlookup eid s'.recordings =
          some { r with progress_percent := progBound s.clock startT dur }) := by
  obtain ⟨hI', hev⟩ := step_ok (inv_reachable hreach) hstep
  refine ⟨fun k r r' hk hk' => (hev k r r' hk hk').2,
    fun k r' hk' hc => (hI'.bounds k r' hk').2.2 hc, ?_⟩
  intro i o' eid dur startT wakeAt p r ha hti hwk hr hp hrc hdurpos
  subst ha
  exact monitor_tick_formula hti hwk hr hp hrc hstep

/-- A reachable state with a recording in progress and its monitor ready to
wake at clock 10. -/
def c7trace : List Act :=
  [Act.submitStart "e" "u" "n" 1,
   Act.runTask 0 LaunchOutcome.ok,
   Act.runTask 0 LaunchOutcome.ok,
   Act.runTask 0 LaunchOutcome.ok,
   Act.tick 10]

def c7sys : Sys := (runTrace c7trace (initSys 2 "o")).getD (initSys 2 "o")

def c7sys' : Sys := (runAct (Act.runTask 0 LaunchOutcome.ok) c7sys).getD (initSys 2 "o")

def c7rec : Recording := (dlookup "e" c7sys.recordings).getD demoRec

/-- Witness for C7 at a concrete monitor wake-up (duration 1 minute, ten
seconds elapsed). -/
theorem C7_witness :
    (∀ k r r', dlookup k c7sys.recordings = some r →
        dlookup k c7sys'.recordings = some r' →
        r.progress_percent ≤ r'.progress_percent) ∧
    (∀ k r', dlookup k c7sys'.recordings = some r' → r'.status = Status.completed →
        r'.progress_percent = 100) ∧
    (∀ i o eid dur startT wakeAt p r, Act.runTask 0 LaunchOutcome.ok = Act.runTask i o →
        c7sys.tasks[i]? = some (Tsk.monSleep eid dur startT wakeAt) → wakeAt ≤ c7sys.clock →
        dlookup eid c7sys.recordings = some r → dlookup eid c7sys.procs = some p →
        p.returncode = none → 0 < dur →
        dlookup eid c7sys'.recordings =
          some { r with progress_percent := progBound c7sys.clock startT dur }) :=
  C7_monitor_progress 2 "o" c7sys c7sys' (Act.runTask 0 LaunchOutcome.ok)
    (runTrace_reachable c7trace (initSys 2 "o") c7sys rfl) rfl

/-- The predicate counted by `active_count`. -/
def isRec (r : Recording) : Bool := r.status == Status.recording

theorem activeCount_eq_countP (s : Sys) :
    activeCount s = s.recordings.countP (fun p => isRec p.2) := by
  rw [activeCount, ← List.countP_eq_length_filter]
  rfl

section CountQ

variable {α : Type} (q : α → Bool) (k : String)

theorem countP_dmodify_le_of_neg (f : α → α) (d : List (String × α))
    (hf : ∀ v, q (f v) = false) :
    (dmodify k f d).countP (fun p => q p.2) ≤ d.countP (fun p => q p.2) := by
  induction d with
  | nil => simp [dmodify]
  | cons hd tl ih =>
      obtain ⟨k0, v0⟩ := hd
      by_cases hk : k0 = k
      · simp [dmodify, hk, List.countP_cons, hf v0]
      · simp [dmodify, hk, List.countP_cons]
        omega

theorem countP_dmodify_le_succ (f : α → α) (d : List (String × α)) :
    (dmodify k f d).countP (fun p => q p.2) ≤ d.countP (fun p => q p.2) + 1 := by
  induction d with
  | nil => simp [dmodify]
  | cons hd tl ih =>
      obtain ⟨k0, v0⟩ := hd
      by_cases hk : k0 = k
      · by_cases hq : q (f v0) <;> by_cases hq0 : q v0 <;>
          simp [dmodify, hk, List.countP_cons, hq, hq0] <;> omega
      · by_cases hq0 : q v0 <;> simp [dmodify, hk, List.countP_cons, hq0] <;> omega

theorem countP_dmodify_eq_of (f : α → α) (d : List (String × α))
    (hf : ∀ v, q (f v) = q v) :
    (dmodify k f d).countP (fun p => q p.2) = d.countP (fun p => q p.2) := by
  induction d with
  | nil => simp [dmodify]
  | cons hd tl ih =>
      obtain ⟨k0, v0⟩ := hd
      by_cases hk : k0 = k
      · simp [dmodify, hk, List.countP_cons, hf v0, ih]
      · simp [dmodify, hk, List.countP_cons, ih]

theorem countP_dinsert_of_neg (v : α) (d : List (String × α))
    (hv : q v = false) :
    (dinsert k v d).countP (fun p => q p.2) ≤ d.countP (fun p => q p.2) := by
  induction d with
  | nil => simp [dinsert, List.countP_cons, hv]
  | cons hd tl ih =>
      obtain ⟨k0, v0⟩ := hd
      by_cases hk : k0 = k
      · by_cases hq0 : q v0 <;> simp [dinsert, hk, List.countP_cons, hv, hq0] <;> omega
      · simp [dinsert, hk, List.countP_cons]
        omega

end CountQ

/-- One monitor wake-up never increases the number of `recording` records and
keeps the configured ceiling. -/
theorem runTask1_monStart_active {eid : String} {dur : Nat} {i : Nat}
    {o : LaunchOutcome} {s s' : Sys}
    (h : runTask1 (Tsk.monStart eid dur) i o s = some s') :
    activeCount s' ≤ activeCount s ∧ s'.max_concurrent = s.max_concurrent := by
  rw [runTask1] at h
  rcases hp : dlookup eid s.procs with _ | p
  · rw [hp] at h
    cases h
  · simp only [hp] at h
    rcases hrc : p.returncode with _ | rc
    · simp only [hrc] at h
      have hX := Option.some.inj h
      have hre : s'.recordings = s.recordings := by rw [← hX]; try rfl
      constructor
      · rw [activeCount_eq_countP, activeCount_eq_countP, hre]
      · rw [← hX]; try rfl
    · simp only [hrc] at h
      have hX := Option.some.inj h
      have hre : s'.recordings = dmodify eid (finishF s.clock) s.recordings := by
        rw [← hX]; try rfl
      constructor
      · rw [activeCount_eq_countP, activeCount_eq_countP, hre]
        exact countP_dmodify_le_of_neg isRec eid (finishF s.clock) s.recordings (fun v => rfl)
      · rw [← hX]; try rfl

theorem runTask1_monSleep_active {eid : String} {dur startT wakeAt : Nat} {i : Nat}
    {o : LaunchOutcome} {s s' : Sys}
    (h : runTask1 (Tsk.monSleep eid dur startT wakeAt) i o s = some s') :
    activeCount s' ≤ activeCount s ∧ s'.max_concurrent = s.max_concurrent := by
  rw [runTask1] at h
  by_cases hwk : s.clock < wakeAt
  · rw [if_pos hwk] at h
    cases h
  · rw [if_neg hwk] at h
    rcases hr : dlookup eid s.recordings with _ | r
    · simp only [hr] at h
      have hX := Option.some.inj h
      have hre : s'.recordings = s.recordings := by rw [← hX]; try rfl
      constructor
      · rw [activeCount_eq_countP, activeCount_eq_countP, hre]
      · rw [← hX]; try rfl
    · simp only [hr] at h
      rcases hp : dlookup eid s.procs with _ | p
      · rw [hp] at h
        cases h
      · simp only [hp] at h
        rcases hrc : p.returncode with _ | rc
        · simp only [hrc] at h
          have hX := Option.some.inj h
          have hre : s'.recordings = dmodify eid
              (fun r0 => { r0 with progress_percent := progBound s.clock startT dur })
              s.recordings := by
            rw [← hX]; try rfl
          constructor
          · rw [activeCount_eq_countP, activeCount_eq_countP, hre]
            exact le_of_eq (countP_dmodify_eq_of isRec eid _ s.recordings (fun v => rfl))
          · rw [← hX]; try rfl
        · simp only [hrc] at h
          have hX := Option.some.inj h
          have hre : s'.recordings = dmodify eid (finishF s.clock)
              (dmodify eid
                (fun r0 => { r0 with progress_percent := progBound s.clock startT dur })
                s.recordings) := by
            rw [← hX]; try rfl
          constructor
          · rw [activeCount_eq_countP, activeCount_eq_countP, hre]
            refine le_trans (countP_dmodify_le_of_neg isRec eid _ _ (fun v => rfl)) ?_
            exact le_of_eq (countP_dmodify_eq_of isRec eid _ s.recordings (fun v => rfl))
          · rw [← hX]; try rfl

/-- One sequential (non-interleaved) operation against the supervisor: a
whole facade start request running to completion (admission check, record
insertion and launch all before anything else runs), a whole stop (the
process exiting with code `rc` during the wait), one monitor wake-up, a
spontaneous process exit, or time passing. -/
inductive SeqOp
  | start (eid url name : String) (dur : Nat) (outcome : LaunchOutcome)
  | stop (eid : String) (rc : Int)
  | monRun (i : Nat)
  | procExit (eid : String) (rc : Int)
  | tick (d : Nat)

/-- routes.py lines 40-51 followed by the whole of `start_recording`, with no
interleaving: the admission check, the first segment, and the launch
continuation run back to back. -/
def seqStart (eid url name : String) (dur : Nat) (outcome : LaunchOutcome) (s : Sys) : Sys :=
  if s.max_concurrent ≤ activeCount s then s
  else
    match start_seg1 eid url name dur s with
    | (s1, Seg1Result.existing _) => s1
    | (s1, Seg1Result.inserted _ _) =>
        match outcome with
        | LaunchOutcome.ok =>
            let s2 := start_launch_ok eid s1
            { s2 with tasks := s2.tasks ++ [Tsk.monStart eid dur] }
        | LaunchOutcome.err m => start_launch_err eid m s1

/-- The whole of `stop_recording` with no interleaving: if a handle exists
the process exits with `rc` during the wait, the handle is deregistered and
the status set; otherwise just the status write. -/
def seqStop (eid : String) (rc : Int) (s : Sys) : Sys :=
  if s.handles.contains eid then
    let s1 := { s with procs := dmodify eid (fun q => { q with returncode := some rc }) s.procs }
    let s2 := { s1 with handles := s1.handles.filter (fun x => x != eid) }
    stop_set_stopped eid s2
  else stop_set_stopped eid s

/-- One monitor wake-up, as in the interleaving semantics. -/
def seqMonRun (i : Nat) (s : Sys) : Sys :=
  match s.tasks[i]? with
  | some (Tsk.monStart eid dur) =>
      match runTask1 (Tsk.monStart eid dur) i LaunchOutcome.ok s with
      | some s' => s'
      | none => s
  | some (Tsk.monSleep eid dur st w) =>
      match runTask1 (Tsk.monSleep eid dur st w) i LaunchOutcome.ok s with
      | some s' => s'
      | none => s
  | _ => s

def applySeq : SeqOp → Sys → Sys
  | SeqOp.start e u n d oc => seqStart e u n d oc
  | SeqOp.stop e rc => seqStop e rc
  | SeqOp.monRun i => seqMonRun i
  | SeqOp.procExit e rc => fun s => (runAct (Act.procExit e rc) s).getD s
  | SeqOp.tick d => fun s => { s with clock := s.clock + d }

def applySeqList (ops : List SeqOp) (s : Sys) : Sys :=
  ops.foldl (fun st op => applySeq op st) s

/-- One sequential operation keeps `active_count` within the ceiling and
never changes the ceiling. -/
theorem applySeq_bound {s : Sys} (op : SeqOp)
    (h : activeCount s ≤ s.max_concurrent) :
    activeCount (applySeq op s) ≤ (applySeq op s).max_concurrent ∧
    (applySeq op s).max_concurrent = s.max_concurrent := by
  cases op with
  | start e u n d oc =>
      rw [applySeq, seqStart]
      by_cases hcap : s.max_concurrent ≤ activeCount s
      · rw [if_pos hcap]
        exact ⟨h, by trivial⟩
      · rw [if_neg hcap]
        rcases hfr : dlookup e s.recordings with _ | r0
        · simp only [start_seg1, hfr]
          cases oc with
          | ok =>
              constructor
              · rw [activeCount_eq_countP]
                show (dmodify e (fun r => { r with status := Status.recording })
                    (dinsert e (freshRecording e n d s.output_path s.clock) s.recordings)).countP
                    (fun p => isRec p.2) ≤ s.max_concurrent
                refine le_trans (countP_dmodify_le_succ isRec e _ _) ?_
                have hins := countP_dinsert_of_neg isRec e
                  (freshRecording e n d s.output_path s.clock) s.recordings rfl
                rw [activeCount_eq_countP] at hcap
                omega
              · rfl
          | err m =>
              constructor
              · rw [activeCount_eq_countP]
                show (dmodify e (fun r => { r with status := Status.failed, error := some m })
                    (dinsert e (freshRecording e n d s.output_path s.clock) s.recordings)).countP
                    (fun p => isRec p.2) ≤ s.max_concurrent
                refine le_trans (countP_dmodify_le_of_neg isRec e _ _ (fun v => rfl)) ?_
                have hins := countP_dinsert_of_neg isRec e
                  (freshRecording e n d s.output_path s.clock) s.recordings rfl
                rw [activeCount_eq_countP] at hcap
                omega
              · rfl
        · simp only [start_seg1, hfr]
          exact ⟨h, by trivial⟩
  | stop e rc =>
      rw [applySeq, seqStop]
      by_cases hh : s.handles.contains e
      · rw [if_pos hh]
        constructor
        · rw [activeCount_eq_countP]
          refine le_trans (countP_dmodify_le_of_neg isRec e _ _ (fun v => rfl)) ?_
          rw [activeCount_eq_countP] at h
          exact h
        · rfl
      · rw [if_neg hh]
        constructor
        · rw [activeCount_eq_countP]
          refine le_trans (countP_dmodify_le_of_neg isRec e _ _ (fun v => rfl)) ?_
          rw [activeCount_eq_countP] at h
          exact h
        · rfl
  | monRun i =>
      rw [applySeq, seqMonRun]
      rcases hti : s.tasks[i]? with _ | t
      · exact ⟨h, by trivial⟩
      · cases t with
        | monStart eid dur =>
            dsimp only
            rcases hrun : runTask1 (Tsk.monStart eid dur) i LaunchOutcome.ok s with _ | s1
            · simp only [hrun]
              exact ⟨h, by trivial⟩
            · simp only [hrun]
              obtain ⟨hle, hmax⟩ := runTask1_monStart_active hrun
              exact ⟨by rw [hmax]; exact le_trans hle h, hmax⟩
        | monSleep eid dur st w =>
            dsimp only
            rcases hrun : runTask1 (Tsk.monSleep eid dur st w) i LaunchOutcome.ok s with _ | s1
            · simp only [hrun]
              exact ⟨h, by trivial⟩
            · simp only [hrun]
              obtain ⟨hle, hmax⟩ := runTask1_monSleep_active hrun
              exact ⟨by rw [hmax]; exact le_trans hle h, hmax⟩
        | startReq e u n d => exact ⟨h, by trivial⟩
        | startLaunch e d c => exact ⟨h, by trivial⟩
        | stopReq e => exact ⟨h, by trivial⟩
        | stopWait e => exact ⟨h, by trivial⟩
  | procExit e rc =>
      rw [applySeq]
      rcases ha : runAct (Act.procExit e rc) s with _ | s1
      · simp only [ha, Option.getD_none]
        exact ⟨h, by trivial⟩
      · simp only [ha, Option.getD_some]
        rw [runAct] at ha
        rcases hp : dlookup e s.procs with _ | p
        · rw [hp] at ha
          cases ha
        · simp only [hp] at ha
          rcases hrc : p.returncode with _ | rc0
          · simp only [hrc] at ha
            have hX := Option.some.inj ha
            have hre : s1.recordings = s.recordings := by rw [← hX]; try rfl
            have hmax : s1.max_concurrent = s.max_concurrent := by rw [← hX]; try rfl
            refine ⟨?_, hmax⟩
            rw [hmax, activeCount_eq_countP, hre, ← activeCount_eq_countP]
            exact h
          · rw [hrc] at ha
            cases ha
  | tick d =>
      exact ⟨h, by trivial⟩

/-- C2 (amended): under purely sequential operations - every facade start
running to completion (admission check through launch) before the next
operation begins, arbitrarily interleaved with whole stops, monitor wake-ups,
process exits and time - `active_count` never exceeds the configured
`max_concurrent` ceiling.  (Interleaved starts can exceed it, see the
counterexample.) -/
theorem C2_sequential_ceiling (ops : List SeqOp) (s0 : Sys)
    (h : activeCount s0 ≤ s0.max_concurrent) :
    activeCount (applySeqList ops s0) ≤ (applySeqList ops s0).max_concurrent := by
  induction ops generalizing s0 with
  | nil => exact h
  | cons op rest ih =>
      rw [applySeqList, List.foldl_cons]
      exact ih (applySeq op s0) (applySeq_bound op h).1

/-- Two facade starts interleaved at the ceiling boundary: both admission
checks run before either record reaches status `recording`. -/
def c2trace : List Act :=
  [Act.submitStart "e1" "u1" "n1" 1,
   Act.submitStart "e2" "u2" "n2" 1,
   Act.runTask 0 LaunchOutcome.ok,
   Act.runTask 1 LaunchOutcome.ok,
   Act.runTask 0 LaunchOutcome.ok,
   Act.runTask 1 LaunchOutcome.ok]

/-- C2 counterexample: with ceiling 1, two interleaved starts drive
`active_count` to 2 - the claimed invariant fails under concurrent starts at
the boundary. -/
theorem C2_counterexample :
    ∃ s, runTrace c2trace (initSys 1 "o") = some s ∧
      s.max_concurrent < activeCount s :=
  ⟨(runTrace c2trace (initSys 1 "o")).getD (initSys 1 "o"), rfl, by decide⟩

def c2ops : List SeqOp :=
  [SeqOp.start "e1" "u1" "n1" 1 LaunchOutcome.ok,
   SeqOp.start "e2" "u2" "n2" 1 LaunchOutcome.ok,
   SeqOp.stop "e1" 0,
   SeqOp.start "e3" "u3" "n3" 1 LaunchOutcome.ok,
   SeqOp.monRun 0,
   SeqOp.tick 20]

/-- Witness for the amended C2 on a concrete sequential workload at
ceiling 1. -/
theorem C2_witness :
    activeCount (applySeqList c2ops (initSys 1 "o")) ≤
      (applySeqList c2ops (initSys 1 "o")).max_concurrent :=
  C2_sequential_ceiling c2ops (initSys 1 "o") (by decide)

/-- Interleaving in which the monitor observes the process exit and
deregisters the handle while `stop_recording` is suspended in
`process.wait()`. -/
def c5trace : List Act :=
  [Act.submitStart "e" "u" "n" 1,
   Act.runTask 0 LaunchOutcome.ok,
   Act.runTask 0 LaunchOutcome.ok,
   Act.submitStop "e",
   Act.runTask 1 LaunchOutcome.ok,
   Act.procExit "e" 0,
   Act.runTask 0 LaunchOutcome.ok,
   Act.runTask 0 LaunchOutcome.ok]

/-- C5: the code, run on the trace above, raises `KeyError` out of
`stop_recording` — the unguarded `del self._processes[event_id]` in
manager.py line 147 fires after the monitor already deleted the handle — and
the status write below it never runs, leaving the record `completed` instead
of `stopped`.  This contradicts the spec's "stop never raises / always sets
status=stopped when a record exists". -/
theorem C5_stop_raises_keyerror :
    ∃ s, runTrace c5trace (initSys 2 "o") = some s ∧
      s.exns = ["KeyError: e"] ∧
      (dlookup "e" s.recordings).map (fun r => r.status) = some Status.completed :=
  ⟨(runTrace c5trace (initSys 2 "o")).getD (initSys 2 "o"), rfl, by decide, by decide⟩

/-- C8 counterexample: the sanitizer does not produce `"Derby_Match_"` for
`"Derby Match!"` — the space is in the safe class `"- _"` and is kept. -/
theorem C8_counterexample : sanitize "Derby Match!" ≠ "Derby_Match_" := by decide

/-- C8 (amended): the sanitizer keeps alphanumerics, dash, space and
underscore and replaces every other character by an underscore, so
`"Derby Match!"` yields `"Derby Match_"` (space preserved, `!` replaced), and
that name is what the output directory and archival file paths use. -/
theorem C8_sanitized_name (out : String) (clock : Nat) :
    sanitize "Derby Match!" = "Derby Match_" ∧
    (freshRecording "evt1" "Derby Match!" 1 out clock).output_dir =
      out ++ "/" ++ ("Derby Match_" ++ "_" ++ timestampStr clock) ∧
    (freshRecording "evt1" "Derby Match!" 1 out clock).mp4_path =
      out ++ "/" ++ ("Derby Match_" ++ "_" ++ timestampStr clock) ++ "/" ++
        "Derby Match_" ++ ".mp4" := by
  have hs : sanitize "Derby Match!" = "Derby Match_" := by decide
  refine ⟨hs, ?_, ?_⟩ <;> simp [freshRecording, hs]

def startsWithSeg : List Char → List Char → Bool
  | [], _ => true
  | _ :: _, [] => false
  | p :: ps, c :: cs => p == c && startsWithSeg ps cs

def hasSeg (pat : List Char) : List Char → Bool
  | [] => startsWithSeg pat []
  | c :: cs => startsWithSeg pat (c :: cs) || hasSeg pat cs

/-- Whether a command-line token mentions the `delete_segments` HLS flag. -/
def mentionsDeleteSegments (a : String) : Bool :=
  hasSeg "delete_segments".toList a.toList

/-- Spec-side predicate for claim C9 (written from the spec's words, to be
compared with `buildCmd`): the invocation caps the archival sink at
`duration_minutes * 60` seconds, keeps the whole segment list, and enables no
segment deletion. -/
def specC9SinkConfig (url : String) (D : Nat) (hls mp4 : String) : Prop :=
  (∃ pre post, buildCmd url D hls mp4 = pre ++ ["-t", toString (D * 60), mp4] ++ post) ∧
  (∃ pre post, buildCmd url D hls mp4 = pre ++ ["-hls_list_size", "0"] ++ post) ∧
  ∀ a ∈ buildCmd url D hls mp4, mentionsDeleteSegments a = false

/-- C9 counterexample: the command built by `start_recording` passes the
`delete_segments` flag (manager.py line 69), so the spec's "no segment
deletion" reading of the sink configuration is false as stated. -/
theorem C9_counterexample : ¬ specC9SinkConfig "rtsp://x" 1 "hls" "mp4" := by
  intro hc
  have h := hc.2.2 "append_list+delete_segments+omit_endlist" (by decide)
  revert h
  decide

/-- C9 (amended): the built invocation reads the single `stream_url` input,
produces the HLS sink in stream-copy mode with an unbounded segment list
(`-hls_list_size 0`, `append_list`, `omit_endlist`) and the archival MP4 sink
in stream-copy mode capped at exactly `duration_minutes * 60` seconds - but
its HLS flags do include `delete_segments` (inert only because the playlist
never drops entries), contrary to the claim's "no segment deletion". -/
theorem C9_sink_configuration (url : String) (D : Nat) (hls mp4 : String) :
    buildCmd url D hls mp4 =
      ["ffmpeg"] ++ ["-i", url] ++ ["-c", "copy"] ++
        ["-f", "hls", "-hls_time", "6", "-hls_list_size", "0",
         "-hls_flags", "append_list+delete_segments+omit_endlist"] ++ [hls] ++
        ["-c", "copy"] ++ ["-t", toString (D * 60)] ++ [mp4] ∧
    ¬ ∀ a ∈ buildCmd url D hls mp4, mentionsDeleteSegments a = false := by
  constructor
  · rfl
  · intro hc
    have h := hc "append_list+delete_segments+omit_endlist" (by simp [buildCmd])
    revert h
    decide

end SportsDVR
